import Mathlib

/-!
# Verification of the clay-kit single-line text-editing core

Shallow embedding of the text-input subsystem of `clay_kit.h`:
`ClayKit_InputState`, `claykit_input_delete_selection`,
`ClayKit_InputHandleKey`, `ClayKit_InputHandleChar`,
`ClayKit_MeasureTextWidth` and `ClayKit_InputGetCursorFromX`.

Modelling choices:
* `char` bytes and the `uint32` fields are modelled as `Nat`; the one place
  where unsigned wrap-around is observable (`s->cap - 1` in
  `ClayKit_InputHandleChar`) is modelled with an explicit `% 2^32`.
* The backing array `buf` is a `List Nat` whose length is the allocation size;
  the struct's `cap` field is kept separately, exactly as in the C struct, and
  well-formedness ties the two together.
* Every array read/write and every guarded `uint32` subtraction is *checked*:
  the embedding runs in `Option`, returning `none` on an out-of-bounds access
  or an underflowing subtraction.  A result of `some _` therefore certifies
  that the corresponding C execution performs no out-of-bounds access and no
  underflow on those subtractions.
-/

/-- Embedding of `ClayKit_InputState` (`clay_kit.h`).  `buf` is the backing
byte array (`char *buf` with its allocation), `cap`, `len`, `cursor` and
`select_start` the `uint32_t` fields.  The `flags` field is never read by the
editing core and is omitted. -/
structure InputState where
  buf : List Nat
  cap : Nat
  len : Nat
  cursor : Nat
  select_start : Nat
  deriving Repr, DecidableEq

/-- Key codes from `ClayKit_Key`. -/
def CLAYKIT_KEY_BACKSPACE : Nat := 1
def CLAYKIT_KEY_DELETE : Nat := 2
def CLAYKIT_KEY_LEFT : Nat := 3
def CLAYKIT_KEY_RIGHT : Nat := 4
def CLAYKIT_KEY_HOME : Nat := 5
def CLAYKIT_KEY_END : Nat := 6
def CLAYKIT_KEY_ENTER : Nat := 7
def CLAYKIT_KEY_TAB : Nat := 8

/-- Modifier bits from `ClayKit_Modifier`. -/
def CLAYKIT_MOD_SHIFT : Nat := 1
def CLAYKIT_MOD_CTRL : Nat := 2
def CLAYKIT_MOD_ALT : Nat := 4

/-- Checked array read: `buf[i]`, `none` when out of bounds. -/
def readC (buf : List Nat) (i : Nat) : Option Nat := buf.get? i

/-- Checked array write: `buf[i] = v`, `none` when out of bounds. -/
def writeC (buf : List Nat) (i : Nat) (v : Nat) : Option (List Nat) :=
  if i < buf.length then some (buf.set i v) else none

/-- Checked `uint32` subtraction: `none` exactly when the C expression would
wrap below zero. -/
def csub (a b : Nat) : Option Nat := if b ≤ a then some (a - b) else none

/-- `uint32` semantics of `c - 1` for a `uint32_t c` (used for `s->cap - 1`,
which the C code computes without a guard). -/
def u32sub1 (c : Nat) : Nat := (c + 4294967295) % 4294967296

/-- `claykit_min_u32`. -/
def claykit_min_u32 (a b : Nat) : Nat := if a < b then a else b

/-- `claykit_max_u32`. -/
def claykit_max_u32 (a b : Nat) : Nat := if a > b then a else b

/-- The left-shifting loop `for (i = start; i < stop; i++) buf[i] = buf[i + d];`
used by `claykit_input_delete_selection` (with `d = del_len`,
`stop = len - del_len`) and by the single-byte deletion branches of
`ClayKit_InputHandleKey` (with `d = 1`, `stop = len - 1`).  The bound `stop`
is loop-invariant, so the loop runs exactly `stop - i` times; that count is
the structural recursion argument, with `i` the live loop counter. -/
def shiftLeftLoop (d : Nat) : Nat → Nat → List Nat → Option (List Nat)
  | 0, _, buf => some buf
  | n + 1, i, buf =>
    match readC buf (i + d) with
    | none => none
    | some v =>
      match writeC buf i v with
      | none => none
      | some buf1 => shiftLeftLoop d n (i + 1) buf1

/-- The right-shifting loop `for (i = len; i > cursor; i--) buf[i] = buf[i-1];`
of `ClayKit_InputHandleChar`; the recursion argument is the loop counter `i`. -/
def shiftRightLoop (cursor : Nat) : Nat → List Nat → Option (List Nat)
  | 0, buf => some buf
  | i + 1, buf =>
    if cursor < i + 1 then
      match readC buf i with
      | none => none
      | some v =>
        match writeC buf (i + 1) v with
        | none => none
        | some buf1 => shiftRightLoop cursor i buf1
    else
      some buf

/-- `claykit_input_delete_selection` (`clay_kit.h`): collapse an active
selection by shifting the tail left and moving `cursor`/`select_start` to the
selection's start. -/
def claykit_input_delete_selection (s : InputState) : Option InputState :=
  if s.cursor = s.select_start then some s
  else
    let start := claykit_min_u32 s.cursor s.select_start
    let stop := claykit_max_u32 s.cursor s.select_start
    let del_len := stop - start
    match csub s.len del_len with
    | none => none
    | some bound =>
      match shiftLeftLoop del_len (bound - start) start s.buf with
      | none => none
      | some buf1 =>
        some { s with buf := buf1, len := bound, cursor := start, select_start := start }

/-- The `CLAYKIT_KEY_BACKSPACE` case of `ClayKit_InputHandleKey`. -/
def handleBackspace (s : InputState) : Option (InputState × Bool) :=
  if s.cursor ≠ s.select_start then
    match claykit_input_delete_selection s with
    | none => none
    | some s1 => some (s1, true)
  else if s.cursor > 0 then
    match csub s.cursor 1, csub s.len 1 with
    | some i0, some bound =>
      match shiftLeftLoop 1 (bound - i0) i0 s.buf with
      | none => none
      | some buf1 =>
        some ({ s with buf := buf1, len := bound, cursor := i0, select_start := i0 }, true)
    | _, _ => none
  else
    some (s, false)

/-- The `CLAYKIT_KEY_DELETE` case of `ClayKit_InputHandleKey`. -/
def handleDelete (s : InputState) : Option (InputState × Bool) :=
  if s.cursor ≠ s.select_start then
    match claykit_input_delete_selection s with
    | none => none
    | some s1 => some (s1, true)
  else if s.cursor < s.len then
    match csub s.len 1 with
    | none => none
    | some bound =>
      match shiftLeftLoop 1 (bound - s.cursor) s.cursor s.buf with
      | none => none
      | some buf1 => some ({ s with buf := buf1, len := bound }, true)
  else
    some (s, false)

/-- `while (cursor > 0 && p (buf[cursor - 1])) cursor--;` — the two
Ctrl+ArrowLeft word-jump loops of `ClayKit_InputHandleKey`, with
`p = (· == ' ')` and then `p = (· != ' ')`. -/
def skipLeftWhile (buf : List Nat) (p : Nat → Bool) : Nat → Option Nat
  | 0 => some 0
  | c + 1 =>
    match readC buf c with
    | none => none
    | some v => if p v then skipLeftWhile buf p c else some (c + 1)

/-- `while (cursor < len && p (buf[cursor])) cursor++;` — the two
Ctrl+ArrowRight word-jump loops of `ClayKit_InputHandleKey`.  The bound `len`
is loop-invariant, so the loop takes at most `len - cursor` steps; that count
is the structural recursion argument (`0` exactly when `cursor ≥ len`), with
`c` the live cursor. -/
def skipRightWhile (buf : List Nat) (p : Nat → Bool) : Nat → Nat → Option Nat
  | 0, c => some c
  | n + 1, c =>
    match readC buf c with
    | none => none
    | some v => if p v then skipRightWhile buf p n (c + 1) else some c

/-- The `CLAYKIT_KEY_LEFT` case of `ClayKit_InputHandleKey`. -/
def handleLeft (s : InputState) (shift ctrl : Bool) : Option (InputState × Bool) :=
  let step : Option Nat :=
    if ctrl then
      match skipLeftWhile s.buf (fun v => v == 32) s.cursor with
      | none => none
      | some c1 => skipLeftWhile s.buf (fun v => v != 32) c1
    else if s.cursor > 0 then some (s.cursor - 1)
    else some s.cursor
  match step with
  | none => none
  | some c =>
    let sel := if shift then s.select_start else c
    some ({ s with cursor := c, select_start := sel }, true)

/-- The `CLAYKIT_KEY_RIGHT` case of `ClayKit_InputHandleKey`. -/
def handleRight (s : InputState) (shift ctrl : Bool) : Option (InputState × Bool) :=
  let step : Option Nat :=
    if ctrl then
      match skipRightWhile s.buf (fun v => v != 32) (s.len - s.cursor) s.cursor with
      | none => none
      | some c1 => skipRightWhile s.buf (fun v => v == 32) (s.len - c1) c1
    else if s.cursor < s.len then some (s.cursor + 1)
    else some s.cursor
  match step with
  | none => none
  | some c =>
    let sel := if shift then s.select_start else c
    some ({ s with cursor := c, select_start := sel }, true)

/-- The state produced by every cursor-motion case of `ClayKit_InputHandleKey`
(ArrowLeft/ArrowRight/Home/End): the cursor moves to `c` and, unless Shift is
held, `select_start` collapses onto it. -/
def moveTo (s : InputState) (shift : Bool) (c : Nat) : InputState :=
  { s with cursor := c, select_start := if shift then s.select_start else c }

/-- `ClayKit_InputHandleKey` (`clay_kit.h`): dispatch on the logical key and
return the updated state together with the `changed` flag. -/
def ClayKit_InputHandleKey (s : InputState) (key mods : Nat) : Option (InputState × Bool) :=
  let shift : Bool := mods &&& CLAYKIT_MOD_SHIFT ≠ 0
  let ctrl : Bool := mods &&& CLAYKIT_MOD_CTRL ≠ 0
  if key = CLAYKIT_KEY_BACKSPACE then handleBackspace s
  else if key = CLAYKIT_KEY_DELETE then handleDelete s
  else if key = CLAYKIT_KEY_LEFT then handleLeft s shift ctrl
  else if key = CLAYKIT_KEY_RIGHT then handleRight s shift ctrl
  else if key = CLAYKIT_KEY_HOME then some (moveTo s shift 0, true)
  else if key = CLAYKIT_KEY_END then some (moveTo s shift s.len, true)
  else
    some (s, false)

/-- `ClayKit_InputHandleChar` (`clay_kit.h`): insert one printable ASCII byte
at the cursor, collapsing an active selection first. -/
def ClayKit_InputHandleChar (s : InputState) (codepoint : Nat) : Option (InputState × Bool) :=
  if codepoint < 32 ∨ codepoint > 126 then some (s, false)
  else
    let s1opt : Option InputState :=
      if s.cursor ≠ s.select_start then claykit_input_delete_selection s else some s
    match s1opt with
    | none => none
    | some s1 =>
      if s1.len ≥ u32sub1 s1.cap then some (s1, false)
      else
        match shiftRightLoop s1.cursor s1.len s1.buf with
        | none => none
        | some buf1 =>
          match writeC buf1 s1.cursor codepoint with
          | none => none
          | some buf2 =>
            let c1 := s1.cursor + 1
            some ({ s1 with buf := buf2, len := s1.len + 1, cursor := c1, select_start := c1 },
              true)

/-- The bound part of the invariant set, together with the structural
well-formedness the C type system provides: the allocation has exactly `cap`
bytes, `cap` is a `uint32` value, and one byte is reserved (`cap ≥ 1`,
`length ≤ cap − 1`). -/
def WFb (s : InputState) : Prop :=
  s.buf.length = s.cap ∧ 1 ≤ s.cap ∧ s.cap < 4294967296 ∧
  s.len ≤ s.cap - 1 ∧ s.cursor ≤ s.len ∧ s.select_start ≤ s.len

instance (s : InputState) : Decidable (WFb s) := by
  unfold WFb; infer_instance

/-- The full invariant set: the bounds of `WFb` plus printability of every
byte in `storage[0..length)`. -/
def WF (s : InputState) : Prop :=
  WFb s ∧ ∀ i, i < s.len → 32 ≤ s.buf.getD i 0 ∧ s.buf.getD i 0 ≤ 126

instance (s : InputState) : Decidable (WF s) := by
  unfold WF; infer_instance

/-- Extensional description of a selection collapse (spec §4.1): the selected
range `[start, end)` is removed, the tail is shifted left by the selection
width, bytes outside the shifted region are untouched, and `cursor` and
`selection_anchor` land on the selection's start. -/
def CollapseOf (s t : InputState) : Prop :=
  t.cap = s.cap ∧ t.buf.length = s.buf.length ∧
  t.len = s.len - (max s.cursor s.select_start - min s.cursor s.select_start) ∧
  t.cursor = min s.cursor s.select_start ∧
  t.select_start = min s.cursor s.select_start ∧
  (∀ j, j < min s.cursor s.select_start → t.buf.getD j 0 = s.buf.getD j 0) ∧
  (∀ j, min s.cursor s.select_start ≤ j → j < t.len →
    t.buf.getD j 0 = s.buf.getD (j + (max s.cursor s.select_start - min s.cursor s.select_start)) 0) ∧
  (∀ j, t.len ≤ j → t.buf.getD j 0 = s.buf.getD j 0)

/-- Extensional description of a single-byte Backspace: the byte at
`cursor − 1` is removed by shifting `storage[cursor..length)` left by one,
`length` and `cursor` are decremented, and `selection_anchor = cursor`. -/
def BackOneOf (s t : InputState) : Prop :=
  t.cap = s.cap ∧ t.buf.length = s.buf.length ∧
  t.len = s.len - 1 ∧ t.cursor = s.cursor - 1 ∧ t.select_start = s.cursor - 1 ∧
  (∀ j, j < s.cursor - 1 → t.buf.getD j 0 = s.buf.getD j 0) ∧
  (∀ j, s.cursor - 1 ≤ j → j < s.len - 1 → t.buf.getD j 0 = s.buf.getD (j + 1) 0) ∧
  (∀ j, s.len - 1 ≤ j → t.buf.getD j 0 = s.buf.getD j 0)

/-- Extensional description of a single-byte Delete: the byte at `cursor` is
removed by shifting `storage[cursor+1..length)` left by one and `length` is
decremented; `cursor` and `selection_anchor` are unchanged. -/
def DelOneOf (s t : InputState) : Prop :=
  t.cap = s.cap ∧ t.buf.length = s.buf.length ∧
  t.len = s.len - 1 ∧ t.cursor = s.cursor ∧ t.select_start = s.select_start ∧
  (∀ j, j < s.cursor → t.buf.getD j 0 = s.buf.getD j 0) ∧
  (∀ j, s.cursor ≤ j → j < s.len - 1 → t.buf.getD j 0 = s.buf.getD (j + 1) 0) ∧
  (∀ j, s.len - 1 ≤ j → t.buf.getD j 0 = s.buf.getD j 0)

/-- Extensional description of a single-byte insertion at the cursor:
`storage[cursor..length)` is shifted right by one, the byte is written at
`cursor`, `length` and `cursor` are incremented, and
`selection_anchor = cursor`. -/
def InsertOf (s : InputState) (cp : Nat) (t : InputState) : Prop :=
  t.cap = s.cap ∧ t.buf.length = s.buf.length ∧
  t.len = s.len + 1 ∧ t.cursor = s.cursor + 1 ∧ t.select_start = s.cursor + 1 ∧
  (∀ j, j < s.cursor → t.buf.getD j 0 = s.buf.getD j 0) ∧
  t.buf.getD s.cursor 0 = cp ∧
  (∀ j, s.cursor < j → j ≤ s.len → t.buf.getD j 0 = s.buf.getD (j - 1) 0) ∧
  (∀ j, s.len < j → t.buf.getD j 0 = s.buf.getD j 0)

/-- The slice of `ClayKit_Context` the cursor locator reads: the optional
`measure_text` callback (`NULL` modelled as `none`).  A measurement maps the
byte run, its length, the font id and the font size to a width; widths are
modelled as rationals. -/
structure ClayKit_Context where
  measure_text : Option (List Nat → Nat → Nat → Nat → ℚ)

/-- `ClayKit_MeasureTextWidth` (`clay_kit.h`): `0` when the callback is absent
or the run is empty, otherwise the callback's width. -/
def ClayKit_MeasureTextWidth (ctx : ClayKit_Context) (text : List Nat)
    (length font_id font_size : Nat) : ℚ :=
  match ctx.measure_text with
  | none => 0
  | some f => if length = 0 then 0 else f text length font_id font_size

/-- The scan loop of `ClayKit_InputGetCursorFromX`:
`for (i = 1; i <= length; i++) { width = ...; mid = (prev_width + width)/2;
if (x_offset < mid) return i - 1; prev_width = width; } return length;`.
The bound `length` is loop-invariant, so the loop takes at most
`length + 1 - i` steps; that count is the structural recursion argument
(`0` exactly when `i > length`), with `i` the live counter. -/
def cursorFromXLoop (ctx : ClayKit_Context) (text : List Nat)
    (length font_id font_size : Nat) (x_offset : ℚ) : Nat → ℚ → Nat → Nat
  | 0, _, _ => length
  | n + 1, prev_width, i =>
    let width := ClayKit_MeasureTextWidth ctx text i font_id font_size
    let mid := (prev_width + width) / 2
    if x_offset < mid then i - 1
    else cursorFromXLoop ctx text length font_id font_size x_offset n width (i + 1)

/-- `ClayKit_InputGetCursorFromX` (`clay_kit.h`). -/
def ClayKit_InputGetCursorFromX (ctx : ClayKit_Context) (text : List Nat)
    (length font_id font_size : Nat) (x_offset : ℚ) : Nat :=
  if ctx.measure_text.isNone ∨ length = 0 ∨ x_offset ≤ 0 then 0
  else cursorFromXLoop ctx text length font_id font_size x_offset length 0 1

/-- Spec-side restatement of the cursor-locator contract (following the spec's
words, to be compared with `ClayKit_InputGetCursorFromX`): return `0` when
`x ≤ 0` or `length = 0`; otherwise find the first `i` in `[1, length]` whose
midpoint `(W(i−1) + W(i))/2` lies strictly right of `x` and return `i − 1`;
return `length` when no midpoint is crossed. -/
def locateCursorSpec (ctx : ClayKit_Context) (text : List Nat)
    (length font_id font_size : Nat) (x_offset : ℚ) : Nat :=
  if x_offset ≤ 0 ∨ length = 0 then 0
  else
    match (List.range' 1 length).find? (fun i =>
        decide (x_offset <
          (ClayKit_MeasureTextWidth ctx text (i - 1) font_id font_size +
            ClayKit_MeasureTextWidth ctx text i font_id font_size) / 2)) with
    | some i => i - 1
    | none => length

/-! ## Basic lemmas about the checked primitives -/

theorem claykit_min_u32_eq (a b : Nat) : claykit_min_u32 a b = min a b := by
  unfold claykit_min_u32; split <;> omega

theorem claykit_max_u32_eq (a b : Nat) : claykit_max_u32 a b = max a b := by
  unfold claykit_max_u32; split <;> omega

theorem csub_eq (a b : Nat) (h : b ≤ a) : csub a b = some (a - b) := by
  unfold csub; simp [h]

theorem u32sub1_eq (c : Nat) (h1 : 1 ≤ c) (h2 : c < 4294967296) : u32sub1 c = c - 1 := by
  unfold u32sub1; omega

theorem readC_eq (l : List Nat) (i : Nat) (h : i < l.length) :
    readC l i = some (l.getD i 0) := by
  unfold readC
  simp [List.getD_eq_getElem?_getD, List.get?_eq_getElem?, List.getElem?_eq_getElem, h]

theorem writeC_eq (l : List Nat) (i v : Nat) (h : i < l.length) :
    writeC l i v = some (l.set i v) := by
  unfold writeC; simp [h]

theorem getD_set_self (l : List Nat) (i v : Nat) (h : i < l.length) :
    (l.set i v).getD i 0 = v := by
  simp [List.getD_eq_getElem?_getD, List.getElem?_set_self, h]

theorem getD_set_ne (l : List Nat) (i j v : Nat) (h : i ≠ j) :
    (l.set i v).getD j 0 = l.getD j 0 := by
  simp [List.getD_eq_getElem?_getD, List.getElem?_set_ne, h]

/-! ## Characterization of the four buffer loops -/

/-- `shiftLeftLoop d n i` runs `n` iterations from `i`: every position in
`[i, i+n)` receives the byte `d` places to its right, everything else is
untouched, and no access leaves the array when `i + n + d ≤ buf.length`. -/
theorem shiftLeftLoop_spec (d : Nat) : ∀ (n i : Nat) (buf : List Nat),
    i + n + d ≤ buf.length →
    ∃ buf1, shiftLeftLoop d n i buf = some buf1 ∧
      buf1.length = buf.length ∧
      (∀ j, j < i ∨ i + n ≤ j → buf1.getD j 0 = buf.getD j 0) ∧
      (∀ j, i ≤ j → j < i + n → buf1.getD j 0 = buf.getD (j + d) 0) := by
  intro n
  induction n with
  | zero =>
    intro i buf _
    refine ⟨buf, rfl, rfl, fun j _ => rfl, fun j h1 h2 => ?_⟩
    omega
  | succ n ih =>
    intro i buf hlen
    have hread : i + d < buf.length := by omega
    have hwrite : i < buf.length := by omega
    have hlen1 : (i + 1) + n + d ≤ (buf.set i (buf.getD (i + d) 0)).length := by
      rw [List.length_set]; omega
    obtain ⟨buf1, heq, hl, hout, hin⟩ := ih (i + 1) (buf.set i (buf.getD (i + d) 0)) hlen1
    refine ⟨buf1, ?_, ?_, ?_, ?_⟩
    · rw [shiftLeftLoop, readC_eq buf (i + d) hread]
      simp only [writeC_eq buf i _ hwrite]
      exact heq
    · rw [hl, List.length_set]
    · intro j hj
      rw [hout j (by omega), getD_set_ne buf i j _ (by omega)]
    · intro j hj1 hj2
      rcases Nat.eq_or_lt_of_le hj1 with heqj | hltj
      · rw [← heqj, hout i (Or.inl (by omega)), getD_set_self buf i _ hwrite]
      · rw [hin j (by omega) (by omega), getD_set_ne buf i (j + d) _ (by omega)]

/-- `shiftRightLoop cursor i` walks `i` down to `cursor + 1`: every position
in `(cursor, i]` receives the byte to its left, everything else is untouched,
and no access leaves the array when `i < buf.length`. -/
theorem shiftRightLoop_spec (cursor : Nat) : ∀ (i : Nat) (buf : List Nat),
    i < buf.length →
    ∃ buf1, shiftRightLoop cursor i buf = some buf1 ∧
      buf1.length = buf.length ∧
      (∀ j, j ≤ cursor ∨ i < j → buf1.getD j 0 = buf.getD j 0) ∧
      (∀ j, cursor < j → j ≤ i → buf1.getD j 0 = buf.getD (j - 1) 0) := by
  intro i
  induction i with
  | zero =>
    intro buf _
    refine ⟨buf, rfl, rfl, fun j _ => rfl, fun j h1 h2 => ?_⟩
    omega
  | succ i ih =>
    intro buf hlen
    by_cases hc : cursor < i + 1
    · have hread : i < buf.length := by omega
      have hwrite : i + 1 < buf.length := hlen
      have hlen1 : i < (buf.set (i + 1) (buf.getD i 0)).length := by
        rw [List.length_set]; omega
      obtain ⟨buf1, heq, hl, hout, hin⟩ := ih (buf.set (i + 1) (buf.getD i 0)) hlen1
      refine ⟨buf1, ?_, ?_, ?_, ?_⟩
      · rw [shiftRightLoop, if_pos hc, readC_eq buf i hread]
        simp only [writeC_eq buf (i + 1) _ hwrite]
        exact heq
      · rw [hl, List.length_set]
      · intro j hj
        rw [hout j (by omega), getD_set_ne buf (i + 1) j _ (by omega)]
      · intro j hj1 hj2
        rcases Nat.eq_or_lt_of_le hj2 with heqj | hltj
        · subst heqj
          rw [hout (i + 1) (Or.inr (by omega)), getD_set_self buf (i + 1) _ hwrite]
          rfl
        · rw [hin j hj1 (by omega), getD_set_ne buf (i + 1) (j - 1) _ (by omega)]
    · refine ⟨buf, ?_, rfl, fun j _ => rfl, fun j h1 h2 => ?_⟩
      · rw [shiftRightLoop, if_neg hc]
      · omega

/-- `skipLeftWhile` lands on the first position `c1 ≤ c` such that every byte
in `[c1, c)` satisfies `p` and either `c1 = 0` or the byte at `c1 - 1` does
not; all reads stay inside the array when `c ≤ buf.length`. -/
theorem skipLeftWhile_spec (buf : List Nat) (p : Nat → Bool) : ∀ c, c ≤ buf.length →
    ∃ c1, skipLeftWhile buf p c = some c1 ∧ c1 ≤ c ∧
      (∀ j, c1 ≤ j → j < c → p (buf.getD j 0) = true) ∧
      (c1 = 0 ∨ p (buf.getD (c1 - 1) 0) = false) := by
  intro c
  induction c with
  | zero =>
    intro _
    exact ⟨0, rfl, Nat.le_refl 0, fun j h1 h2 => by omega, Or.inl rfl⟩
  | succ c ih =>
    intro hc
    have hread : c < buf.length := by omega
    by_cases hp : p (buf.getD c 0) = true
    · obtain ⟨c1, heq, hle, hall, hstop⟩ := ih (by omega)
      refine ⟨c1, ?_, by omega, ?_, hstop⟩
      · rw [skipLeftWhile, readC_eq buf c hread]
        simp only [hp, if_true]
        exact heq
      · intro j h1 h2
        rcases Nat.lt_or_ge j c with hj | hj
        · exact hall j h1 hj
        · have : j = c := by omega
          rw [this]; exact hp
    · refine ⟨c + 1, ?_, Nat.le_refl _, fun j h1 h2 => by omega, Or.inr ?_⟩
      · rw [skipLeftWhile, readC_eq buf c hread]
        simp only [hp]
        rfl
      · have : c + 1 - 1 = c := by omega
        rw [this]
        exact Bool.eq_false_iff.mpr hp

/-- `skipRightWhile` with fuel `n` starting at `c` lands on the first position
`c1 ∈ [c, c + n]` such that every byte in `[c, c1)` satisfies `p` and either
`c1 = c + n` (the bound is hit) or the byte at `c1` does not satisfy `p`; all
reads stay inside the array when `c + n ≤ buf.length`. -/
theorem skipRightWhile_spec (buf : List Nat) (p : Nat → Bool) : ∀ (n c : Nat),
    c + n ≤ buf.length →
    ∃ c1, skipRightWhile buf p n c = some c1 ∧ c ≤ c1 ∧ c1 ≤ c + n ∧
      (∀ j, c ≤ j → j < c1 → p (buf.getD j 0) = true) ∧
      (c1 = c + n ∨ p (buf.getD c1 0) = false) := by
  intro n
  induction n with
  | zero =>
    intro c _
    exact ⟨c, rfl, Nat.le_refl c, by omega, fun j h1 h2 => by omega, Or.inl rfl⟩
  | succ n ih =>
    intro c hc
    have hread : c < buf.length := by omega
    by_cases hp : p (buf.getD c 0) = true
    · obtain ⟨c1, heq, hge, hle, hall, hstop⟩ := ih (c + 1) (by omega)
      refine ⟨c1, ?_, by omega, by omega, ?_, ?_⟩
      · rw [skipRightWhile, readC_eq buf c hread]
        simp only [hp, if_true]
        exact heq
      · intro j h1 h2
        rcases Nat.lt_or_ge j (c + 1) with hj | hj
        · have : j = c := by omega
          rw [this]; exact hp
        · exact hall j hj h2
      · rcases hstop with h | h
        · exact Or.inl (by omega)
        · exact Or.inr h
    · refine ⟨c, ?_, Nat.le_refl c, by omega, fun j h1 h2 => by omega,
        Or.inr (Bool.eq_false_iff.mpr hp)⟩
      rw [skipRightWhile, readC_eq buf c hread]
      simp only [hp]
      rfl

/-! ## The selection-collapse helper -/

theorem delete_selection_noop (s : InputState) (heq : s.cursor = s.select_start) :
    claykit_input_delete_selection s = some s := by
  unfold claykit_input_delete_selection
  rw [if_pos heq]

theorem delete_selection_some (s : InputState) (hb : WFb s)
    (hne : s.cursor ≠ s.select_start) :
    ∃ t, claykit_input_delete_selection s = some t ∧ CollapseOf s t ∧ WFb t ∧
      t.len < s.len := by
  obtain ⟨hcap, hcap1, hcap32, hlen, hcur, hsel⟩ := hb
  have hmax : max s.cursor s.select_start ≤ s.len := by omega
  have hdel1 : 1 ≤ max s.cursor s.select_start - min s.cursor s.select_start := by omega
  have hdle : max s.cursor s.select_start - min s.cursor s.select_start ≤ s.len := by omega
  obtain ⟨buf1, hsl, hl, hout, hin⟩ :=
    shiftLeftLoop_spec (max s.cursor s.select_start - min s.cursor s.select_start)
      ((s.len - (max s.cursor s.select_start - min s.cursor s.select_start)) -
        min s.cursor s.select_start)
      (min s.cursor s.select_start) s.buf (by omega)
  refine ⟨⟨buf1, s.cap, s.len - (max s.cursor s.select_start - min s.cursor s.select_start),
    min s.cursor s.select_start, min s.cursor s.select_start⟩, ?_, ?_, ?_, ?_⟩
  · unfold claykit_input_delete_selection
    rw [if_neg (by exact fun h => hne h)]
    simp only [claykit_min_u32_eq, claykit_max_u32_eq,
      csub_eq s.len (max s.cursor s.select_start - min s.cursor s.select_start) hdle, hsl]
  · refine ⟨rfl, ?_, rfl, rfl, rfl, ?_, ?_, ?_⟩
    · show buf1.length = s.buf.length
      exact hl
    · intro j hj
      exact hout j (Or.inl hj)
    · intro j hj1 hj2
      have hj2' : j < s.len - (max s.cursor s.select_start - min s.cursor s.select_start) := hj2
      exact hin j hj1 (by omega)
    · intro j hj
      have hj' : s.len - (max s.cursor s.select_start - min s.cursor s.select_start) ≤ j := hj
      exact hout j (Or.inr (by omega))
  · refine ⟨hl.trans hcap, hcap1, hcap32, ?_, ?_, ?_⟩
    · show s.len - (max s.cursor s.select_start - min s.cursor s.select_start) ≤ s.cap - 1
      omega
    · show min s.cursor s.select_start ≤
        s.len - (max s.cursor s.select_start - min s.cursor s.select_start)
      omega
    · show min s.cursor s.select_start ≤
        s.len - (max s.cursor s.select_start - min s.cursor s.select_start)
      omega
  · show s.len - (max s.cursor s.select_start - min s.cursor s.select_start) < s.len
    omega

theorem CollapseOf_WF (s t : InputState) (hWF : WF s) (hb : WFb t)
    (hC : CollapseOf s t) : WF t := by
  obtain ⟨⟨hcap, hcap1, hcap32, hlen, hcur, hsel⟩, hpr⟩ := hWF
  obtain ⟨_, _, hlen', hcur', hsel', hlow, hmid, _⟩ := hC
  refine ⟨hb, ?_⟩
  intro i hi
  rcases Nat.lt_or_ge i (min s.cursor s.select_start) with h | h
  · rw [hlow i h]
    exact hpr i (by omega)
  · rw [hmid i h hi]
    have hi' : i < s.len - (max s.cursor s.select_start - min s.cursor s.select_start) := by
      omega
    exact hpr _ (by omega)

/-! ## The Backspace and Delete branches -/

theorem handleBackspace_sel (s : InputState) (hb : WFb s)
    (hne : s.cursor ≠ s.select_start) :
    ∃ t, handleBackspace s = some (t, true) ∧ CollapseOf s t ∧ WFb t ∧
      t.len < s.len := by
  obtain ⟨t, heq, hC, hb', hlt⟩ := delete_selection_some s hb hne
  refine ⟨t, ?_, hC, hb', hlt⟩
  unfold handleBackspace
  rw [if_pos hne, heq]

theorem handleBackspace_noop (s : InputState) (heq : s.cursor = s.select_start)
    (h0 : s.cursor = 0) :
    handleBackspace s = some (s, false) := by
  unfold handleBackspace
  rw [if_neg (by simp [heq]), if_neg (by omega)]

theorem handleBackspace_char (s : InputState) (hb : WFb s)
    (heq : s.cursor = s.select_start) (hpos : 0 < s.cursor) :
    ∃ t, handleBackspace s = some (t, true) ∧ BackOneOf s t ∧ WFb t := by
  obtain ⟨hcap, hcap1, hcap32, hlen, hcur, hsel⟩ := hb
  obtain ⟨buf1, hsl, hl, hout, hin⟩ :=
    shiftLeftLoop_spec 1 ((s.len - 1) - (s.cursor - 1)) (s.cursor - 1) s.buf (by omega)
  refine ⟨⟨buf1, s.cap, s.len - 1, s.cursor - 1, s.cursor - 1⟩, ?_, ?_, ?_⟩
  · unfold handleBackspace
    rw [if_neg (by simp [heq]), if_pos hpos]
    simp only [csub_eq s.cursor 1 (by omega), csub_eq s.len 1 (by omega), hsl]
  · refine ⟨rfl, ?_, rfl, rfl, rfl, ?_, ?_, ?_⟩
    · show buf1.length = s.buf.length
      exact hl
    · intro j hj
      exact hout j (Or.inl hj)
    · intro j hj1 hj2
      exact hin j hj1 (by omega)
    · intro j hj
      exact hout j (Or.inr (by omega))
  · refine ⟨hl.trans hcap, hcap1, hcap32, ?_, ?_, ?_⟩
    · show s.len - 1 ≤ s.cap - 1
      omega
    · show s.cursor - 1 ≤ s.len - 1
      omega
    · show s.cursor - 1 ≤ s.len - 1
      omega

theorem handleDelete_sel (s : InputState) (hb : WFb s)
    (hne : s.cursor ≠ s.select_start) :
    ∃ t, handleDelete s = some (t, true) ∧ CollapseOf s t ∧ WFb t ∧
      t.len < s.len := by
  obtain ⟨t, heq, hC, hb', hlt⟩ := delete_selection_some s hb hne
  refine ⟨t, ?_, hC, hb', hlt⟩
  unfold handleDelete
  rw [if_pos hne, heq]

theorem handleDelete_noop (s : InputState) (heq : s.cursor = s.select_start)
    (hend : s.len ≤ s.cursor) :
    handleDelete s = some (s, false) := by
  unfold handleDelete
  rw [if_neg (by simp [heq]), if_neg (by omega)]

theorem handleDelete_char (s : InputState) (hb : WFb s)
    (heq : s.cursor = s.select_start) (hlt : s.cursor < s.len) :
    ∃ t, handleDelete s = some (t, true) ∧ DelOneOf s t ∧ WFb t := by
  obtain ⟨hcap, hcap1, hcap32, hlen, hcur, hsel⟩ := hb
  obtain ⟨buf1, hsl, hl, hout, hin⟩ :=
    shiftLeftLoop_spec 1 ((s.len - 1) - s.cursor) s.cursor s.buf (by omega)
  refine ⟨⟨buf1, s.cap, s.len - 1, s.cursor, s.select_start⟩, ?_, ?_, ?_⟩
  · unfold handleDelete
    rw [if_neg (by simp [heq]), if_pos hlt]
    simp only [csub_eq s.len 1 (by omega), hsl]
  · refine ⟨rfl, ?_, rfl, rfl, rfl, ?_, ?_, ?_⟩
    · show buf1.length = s.buf.length
      exact hl
    · intro j hj
      exact hout j (Or.inl hj)
    · intro j hj1 hj2
      exact hin j hj1 (by omega)
    · intro j hj
      exact hout j (Or.inr (by omega))
  · refine ⟨hl.trans hcap, hcap1, hcap32, ?_, ?_, ?_⟩
    · show s.len - 1 ≤ s.cap - 1
      omega
    · show s.cursor ≤ s.len - 1
      omega
    · show s.select_start ≤ s.len - 1
      omega

/-! ## The ArrowLeft and ArrowRight branches -/

theorem handleLeft_ctrl (s : InputState) (shift : Bool) (hb : WFb s) :
    ∃ c m, handleLeft s shift true = some (moveTo s shift c, true) ∧
      c ≤ m ∧ m ≤ s.cursor ∧
      (∀ j, m ≤ j → j < s.cursor → s.buf.getD j 0 = 32) ∧
      (m = 0 ∨ s.buf.getD (m - 1) 0 ≠ 32) ∧
      (∀ j, c ≤ j → j < m → s.buf.getD j 0 ≠ 32) ∧
      (c = 0 ∨ s.buf.getD (c - 1) 0 = 32) := by
  obtain ⟨hcap, hcap1, hcap32, hlen, hcur, hsel⟩ := hb
  obtain ⟨m, heq1, hm, hall1, hstop1⟩ :=
    skipLeftWhile_spec s.buf (fun v => v == 32) s.cursor (by omega)
  obtain ⟨c, heq2, hc, hall2, hstop2⟩ :=
    skipLeftWhile_spec s.buf (fun v => v != 32) m (by omega)
  refine ⟨c, m, ?_, hc, hm, ?_, ?_, ?_, ?_⟩
  · simp only [handleLeft, moveTo, heq1, heq2, if_true]
  · intro j h1 h2
    have := hall1 j h1 h2
    simpa using this
  · rcases hstop1 with h | h
    · exact Or.inl h
    · exact Or.inr (by simpa using h)
  · intro j h1 h2
    have := hall2 j h1 h2
    simpa using this
  · rcases hstop2 with h | h
    · exact Or.inl h
    · exact Or.inr (by simpa using h)

theorem handleLeft_plain_pos (s : InputState) (shift : Bool) (hpos : 0 < s.cursor) :
    handleLeft s shift false = some (moveTo s shift (s.cursor - 1), true) := by
  simp only [handleLeft, moveTo, Bool.false_eq_true, if_false, if_pos hpos]

theorem handleLeft_plain_zero (s : InputState) (shift : Bool) (h0 : s.cursor = 0) :
    handleLeft s shift false = some (moveTo s shift s.cursor, true) := by
  simp only [handleLeft, moveTo, Bool.false_eq_true, if_false,
    if_neg (by omega : ¬ 0 < s.cursor)]

theorem handleLeft_some (s : InputState) (shift ctrl : Bool) (hb : WFb s) :
    ∃ c, handleLeft s shift ctrl = some (moveTo s shift c, true) ∧ c ≤ s.cursor := by
  cases ctrl with
  | true =>
    obtain ⟨c, m, heq, hc, hm, _⟩ := handleLeft_ctrl s shift hb
    exact ⟨c, heq, by omega⟩
  | false =>
    rcases Nat.eq_zero_or_pos s.cursor with h0 | hpos
    · exact ⟨s.cursor, handleLeft_plain_zero s shift h0, Nat.le_refl _⟩
    · exact ⟨s.cursor - 1, handleLeft_plain_pos s shift hpos, by omega⟩

theorem handleRight_ctrl (s : InputState) (shift : Bool) (hb : WFb s) :
    ∃ c m, handleRight s shift true = some (moveTo s shift c, true) ∧
      s.cursor ≤ m ∧ m ≤ c ∧ c ≤ s.len ∧
      (∀ j, s.cursor ≤ j → j < m → s.buf.getD j 0 ≠ 32) ∧
      (m = s.len ∨ s.buf.getD m 0 = 32) ∧
      (∀ j, m ≤ j → j < c → s.buf.getD j 0 = 32) ∧
      (c = s.len ∨ s.buf.getD c 0 ≠ 32) := by
  obtain ⟨hcap, hcap1, hcap32, hlen, hcur, hsel⟩ := hb
  obtain ⟨m, heq1, hm1, hm2, hall1, hstop1⟩ :=
    skipRightWhile_spec s.buf (fun v => v != 32) (s.len - s.cursor) s.cursor (by omega)
  have hmlen : m ≤ s.len := by omega
  obtain ⟨c, heq2, hc1, hc2, hall2, hstop2⟩ :=
    skipRightWhile_spec s.buf (fun v => v == 32) (s.len - m) m (by omega)
  refine ⟨c, m, ?_, hm1, hc1, by omega, ?_, ?_, ?_, ?_⟩
  · simp only [handleRight, moveTo, heq1, heq2, if_true]
  · intro j h1 h2
    have := hall1 j h1 h2
    simpa using this
  · rcases hstop1 with h | h
    · exact Or.inl (by omega)
    · exact Or.inr (by simpa using h)
  · intro j h1 h2
    have := hall2 j h1 h2
    simpa using this
  · rcases hstop2 with h | h
    · exact Or.inl (by omega)
    · exact Or.inr (by simpa using h)

theorem handleRight_plain_mid (s : InputState) (shift : Bool) (hlt : s.cursor < s.len) :
    handleRight s shift false = some (moveTo s shift (s.cursor + 1), true) := by
  simp only [handleRight, moveTo, Bool.false_eq_true, if_false, if_pos hlt]

theorem handleRight_plain_end (s : InputState) (shift : Bool) (hend : ¬ s.cursor < s.len) :
    handleRight s shift false = some (moveTo s shift s.cursor, true) := by
  simp only [handleRight, moveTo, Bool.false_eq_true, if_false, if_neg hend]

theorem handleRight_some (s : InputState) (shift ctrl : Bool) (hb : WFb s) :
    ∃ c, handleRight s shift ctrl = some (moveTo s shift c, true) ∧ c ≤ s.len := by
  cases ctrl with
  | true =>
    obtain ⟨c, m, heq, _, _, hcl, _⟩ := handleRight_ctrl s shift hb
    exact ⟨c, heq, hcl⟩
  | false =>
    by_cases hlt : s.cursor < s.len
    · exact ⟨s.cursor + 1, handleRight_plain_mid s shift hlt, by omega⟩
    · refine ⟨s.cursor, handleRight_plain_end s shift hlt, ?_⟩
      obtain ⟨_, _, _, _, hcur, _⟩ := hb
      exact hcur

theorem moveTo_WFb (s : InputState) (shift : Bool) (c : Nat) (hb : WFb s)
    (hc : c ≤ s.len) : WFb (moveTo s shift c) := by
  obtain ⟨hcap, hcap1, hcap32, hlen, hcur, hsel⟩ := hb
  refine ⟨hcap, hcap1, hcap32, hlen, hc, ?_⟩
  show (if shift then s.select_start else c) ≤ s.len
  cases shift <;> simpa

theorem moveTo_WF (s : InputState) (shift : Bool) (c : Nat) (hWF : WF s)
    (hc : c ≤ s.len) : WF (moveTo s shift c) := by
  exact ⟨moveTo_WFb s shift c hWF.1 hc, hWF.2⟩

/-! ## The character-insertion branches -/

theorem handleChar_nonprint (s : InputState) (cp : Nat) (h : cp < 32 ∨ 126 < cp) :
    ClayKit_InputHandleChar s cp = some (s, false) := by
  unfold ClayKit_InputHandleChar
  rw [if_pos h]

theorem insertProps (s1 : InputState) (cp : Nat) (hb : WFb s1) (hlt : s1.len < s1.cap - 1) :
    ∃ buf1 buf2, shiftRightLoop s1.cursor s1.len s1.buf = some buf1 ∧
      writeC buf1 s1.cursor cp = some buf2 ∧
      InsertOf s1 cp ⟨buf2, s1.cap, s1.len + 1, s1.cursor + 1, s1.cursor + 1⟩ ∧
      WFb ⟨buf2, s1.cap, s1.len + 1, s1.cursor + 1, s1.cursor + 1⟩ := by
  obtain ⟨hcap, hcap1, hcap32, hlen, hcur, hsel⟩ := hb
  obtain ⟨buf1, hsr, hl, hout, hin⟩ := shiftRightLoop_spec s1.cursor s1.len s1.buf (by omega)
  have hcurlt : s1.cursor < buf1.length := by omega
  refine ⟨buf1, buf1.set s1.cursor cp, hsr, writeC_eq buf1 s1.cursor cp hcurlt, ?_, ?_⟩
  · refine ⟨rfl, ?_, rfl, rfl, rfl, ?_, ?_, ?_, ?_⟩
    · show (buf1.set s1.cursor cp).length = s1.buf.length
      rw [List.length_set, hl]
    · intro j hj
      rw [getD_set_ne buf1 s1.cursor j cp (by omega), hout j (Or.inl (by omega))]
    · show (buf1.set s1.cursor cp).getD s1.cursor 0 = cp
      exact getD_set_self buf1 s1.cursor cp hcurlt
    · intro j hj1 hj2
      rw [getD_set_ne buf1 s1.cursor j cp (by omega), hin j hj1 hj2]
    · intro j hj
      rw [getD_set_ne buf1 s1.cursor j cp (by omega), hout j (Or.inr (by omega))]
  · refine ⟨?_, hcap1, hcap32, ?_, ?_, ?_⟩
    · show (buf1.set s1.cursor cp).length = s1.cap
      rw [List.length_set, hl, hcap]
    · show s1.len + 1 ≤ s1.cap - 1
      omega
    · show s1.cursor + 1 ≤ s1.len + 1
      omega
    · show s1.cursor + 1 ≤ s1.len + 1
      omega

theorem handleChar_capacity (s : InputState) (cp : Nat) (hb : WFb s)
    (hpr : ¬ (cp < 32 ∨ 126 < cp)) (heq : s.cursor = s.select_start)
    (hcap : s.cap - 1 ≤ s.len) :
    ClayKit_InputHandleChar s cp = some (s, false) := by
  obtain ⟨hc, hcap1, hcap32, hlen, hcur, hsel⟩ := hb
  unfold ClayKit_InputHandleChar
  rw [if_neg hpr, if_neg (by simp [heq])]
  show (if s.len ≥ u32sub1 s.cap then some (s, false) else _) = some (s, false)
  rw [u32sub1_eq s.cap hcap1 hcap32, if_pos (by omega)]

theorem handleChar_noSel_insert (s : InputState) (cp : Nat) (hb : WFb s)
    (hpr : ¬ (cp < 32 ∨ 126 < cp)) (heq : s.cursor = s.select_start)
    (hlt : s.len < s.cap - 1) :
    ∃ t, ClayKit_InputHandleChar s cp = some (t, true) ∧ InsertOf s cp t ∧ WFb t := by
  obtain ⟨buf1, buf2, hsr, hw, hI, hWb⟩ := insertProps s cp hb hlt
  obtain ⟨hc, hcap1, hcap32, hlen, hcur, hsel⟩ := hb
  refine ⟨⟨buf2, s.cap, s.len + 1, s.cursor + 1, s.cursor + 1⟩, ?_, hI, hWb⟩
  unfold ClayKit_InputHandleChar
  rw [if_neg hpr, if_neg (by simp [heq])]
  show (if s.len ≥ u32sub1 s.cap then _ else _) = _
  rw [u32sub1_eq s.cap hcap1 hcap32, if_neg (by omega)]
  simp only [hsr, hw]

theorem handleChar_sel_insert (s : InputState) (cp : Nat) (hb : WFb s)
    (hpr : ¬ (cp < 32 ∨ 126 < cp)) (hne : s.cursor ≠ s.select_start) :
    ∃ s1 t, claykit_input_delete_selection s = some s1 ∧ CollapseOf s s1 ∧ WFb s1 ∧
      s1.len < s.len ∧ s1.len < s1.cap - 1 ∧
      ClayKit_InputHandleChar s cp = some (t, true) ∧ InsertOf s1 cp t ∧ WFb t := by
  obtain ⟨s1, hdel, hC, hb1, hlt⟩ := delete_selection_some s hb hne
  have hcapeq : s1.cap = s.cap := hC.1
  have hlt1 : s1.len < s1.cap - 1 := by
    obtain ⟨_, _, _, hlen, _, _⟩ := hb
    omega
  obtain ⟨buf1, buf2, hsr, hw, hI, hWb⟩ := insertProps s1 cp hb1 hlt1
  obtain ⟨hc1, hcap11, hcap132, hlen1, hcur1, hsel1⟩ := hb1
  refine ⟨s1, ⟨buf2, s1.cap, s1.len + 1, s1.cursor + 1, s1.cursor + 1⟩,
    hdel, hC, ⟨hc1, hcap11, hcap132, hlen1, hcur1, hsel1⟩, hlt, hlt1, ?_, hI, hWb⟩
  unfold ClayKit_InputHandleChar
  rw [if_neg hpr, if_pos hne, hdel]
  show (if s1.len ≥ u32sub1 s1.cap then _ else _) = _
  rw [u32sub1_eq s1.cap hcap11 hcap132, if_neg (by omega)]
  simp only [hsr, hw]

/-! ## Printability transfer along the extensional descriptions -/

theorem BackOneOf_WF (s t : InputState) (hWF : WF s) (hb : WFb t)
    (hB : BackOneOf s t) : WF t := by
  obtain ⟨⟨hcap, hcap1, hcap32, hlen, hcur, hsel⟩, hpr⟩ := hWF
  obtain ⟨_, _, hlen', hcur', hsel', hlow, hmid, _⟩ := hB
  refine ⟨hb, ?_⟩
  intro i hi
  rw [hlen'] at hi
  rcases Nat.lt_or_ge i (s.cursor - 1) with h | h
  · rw [hlow i h]
    exact hpr i (by omega)
  · rw [hmid i h hi]
    exact hpr _ (by omega)

theorem DelOneOf_WF (s t : InputState) (hWF : WF s) (hb : WFb t)
    (hD : DelOneOf s t) : WF t := by
  obtain ⟨⟨hcap, hcap1, hcap32, hlen, hcur, hsel⟩, hpr⟩ := hWF
  obtain ⟨_, _, hlen', hcur', hsel', hlow, hmid, _⟩ := hD
  refine ⟨hb, ?_⟩
  intro i hi
  rw [hlen'] at hi
  rcases Nat.lt_or_ge i s.cursor with h | h
  · rw [hlow i h]
    exact hpr i (by omega)
  · rw [hmid i h hi]
    exact hpr _ (by omega)

theorem InsertOf_WF (s t : InputState) (cp : Nat) (hWF : WF s) (hb : WFb t)
    (hI : InsertOf s cp t) (h32 : 32 ≤ cp) (h126 : cp ≤ 126) : WF t := by
  obtain ⟨⟨hcap, hcap1, hcap32, hlen, hcur, hsel⟩, hpr⟩ := hWF
  obtain ⟨_, _, hlen', hcur', hsel', hlow, hat, hmid, _⟩ := hI
  refine ⟨hb, ?_⟩
  intro i hi
  rw [hlen'] at hi
  rcases Nat.lt_trichotomy i s.cursor with h | h | h
  · rw [hlow i h]
    exact hpr i (by omega)
  · rw [h, hat]
    exact ⟨h32, h126⟩
  · rw [hmid i h (by omega)]
    exact hpr _ (by omega)

/-! ## Master case analyses of the two entry points -/

theorem handleKey_master (s : InputState) (key mods : Nat) (hWF : WF s) :
    ∃ t b, ClayKit_InputHandleKey s key mods = some (t, b) ∧ WF t ∧
      (b = false → t = s) ∧
      ((key = CLAYKIT_KEY_BACKSPACE ∨ key = CLAYKIT_KEY_DELETE) → b = true → t ≠ s) ∧
      ((key = CLAYKIT_KEY_LEFT ∨ key = CLAYKIT_KEY_RIGHT ∨ key = CLAYKIT_KEY_HOME ∨
        key = CLAYKIT_KEY_END) → b = true) ∧
      ((key = CLAYKIT_KEY_BACKSPACE ∨ key = CLAYKIT_KEY_DELETE) ∨
        (key = CLAYKIT_KEY_LEFT ∨ key = CLAYKIT_KEY_RIGHT ∨ key = CLAYKIT_KEY_HOME ∨
         key = CLAYKIT_KEY_END) ∨ (b = false ∧ t = s)) := by
  have hWFb := hWF.1
  by_cases h1 : key = CLAYKIT_KEY_BACKSPACE
  · subst h1
    by_cases hne : s.cursor ≠ s.select_start
    · obtain ⟨t, heq, hC, hb', hlt⟩ := handleBackspace_sel s hWFb hne
      refine ⟨t, true, heq, CollapseOf_WF s t hWF hb' hC, by simp, ?_, ?_, ?_⟩
      · intro _ _ ht
        rw [ht] at hlt
        omega
      · intro h
        rcases h with h | h | h | h <;> simp [CLAYKIT_KEY_BACKSPACE, CLAYKIT_KEY_LEFT,
          CLAYKIT_KEY_RIGHT, CLAYKIT_KEY_HOME, CLAYKIT_KEY_END] at h
      · exact Or.inl (Or.inl rfl)
    · push_neg at hne
      rcases Nat.eq_zero_or_pos s.cursor with h0 | hpos
      · refine ⟨s, false, handleBackspace_noop s hne h0, hWF, fun _ => rfl, ?_, ?_, ?_⟩
        · intro _ hb
          exact absurd hb (by simp)
        · intro h
          rcases h with h | h | h | h <;> simp [CLAYKIT_KEY_BACKSPACE, CLAYKIT_KEY_LEFT,
            CLAYKIT_KEY_RIGHT, CLAYKIT_KEY_HOME, CLAYKIT_KEY_END] at h
        · exact Or.inl (Or.inl rfl)
      · obtain ⟨t, heq, hB, hb'⟩ := handleBackspace_char s hWFb hne hpos
        refine ⟨t, true, heq, BackOneOf_WF s t hWF hb' hB, by simp, ?_, ?_, ?_⟩
        · intro _ _ ht
          have hlen1 := hB.2.2.1
          have hcur := hWF.1.2.2.2.2.1
          rw [ht] at hlen1
          omega
        · intro h
          rcases h with h | h | h | h <;> simp [CLAYKIT_KEY_BACKSPACE, CLAYKIT_KEY_LEFT,
            CLAYKIT_KEY_RIGHT, CLAYKIT_KEY_HOME, CLAYKIT_KEY_END] at h
        · exact Or.inl (Or.inl rfl)
  · by_cases h2 : key = CLAYKIT_KEY_DELETE
    · subst h2
      by_cases hne : s.cursor ≠ s.select_start
      · obtain ⟨t, heq, hC, hb', hlt⟩ := handleDelete_sel s hWFb hne
        refine ⟨t, true, heq, CollapseOf_WF s t hWF hb' hC, by simp, ?_, ?_, ?_⟩
        · intro _ _ ht
          rw [ht] at hlt
          omega
        · intro h
          rcases h with h | h | h | h <;> simp [CLAYKIT_KEY_DELETE, CLAYKIT_KEY_LEFT,
            CLAYKIT_KEY_RIGHT, CLAYKIT_KEY_HOME, CLAYKIT_KEY_END] at h
        · exact Or.inl (Or.inr rfl)
      · push_neg at hne
        by_cases hlt : s.cursor < s.len
        · obtain ⟨t, heq, hD, hb'⟩ := handleDelete_char s hWFb hne hlt
          refine ⟨t, true, heq, DelOneOf_WF s t hWF hb' hD, by simp, ?_, ?_, ?_⟩
          · intro _ _ ht
            have := hD.2.2.1
            rw [ht] at this
            omega
          · intro h
            rcases h with h | h | h | h <;> simp [CLAYKIT_KEY_DELETE, CLAYKIT_KEY_LEFT,
              CLAYKIT_KEY_RIGHT, CLAYKIT_KEY_HOME, CLAYKIT_KEY_END] at h
          · exact Or.inl (Or.inr rfl)
        · refine ⟨s, false, handleDelete_noop s hne (by omega), hWF, fun _ => rfl, ?_, ?_, ?_⟩
          · intro _ hb
            exact absurd hb (by simp)
          · intro h
            rcases h with h | h | h | h <;> simp [CLAYKIT_KEY_DELETE, CLAYKIT_KEY_LEFT,
              CLAYKIT_KEY_RIGHT, CLAYKIT_KEY_HOME, CLAYKIT_KEY_END] at h
          · exact Or.inl (Or.inr rfl)
    · by_cases h3 : key = CLAYKIT_KEY_LEFT
      · subst h3
        obtain ⟨c, heq, hc⟩ := handleLeft_some s (decide (mods &&& CLAYKIT_MOD_SHIFT ≠ 0))
          (decide (mods &&& CLAYKIT_MOD_CTRL ≠ 0)) hWFb
        have hclen : c ≤ s.len := by
          obtain ⟨_, _, _, _, hcur, _⟩ := hWFb
          omega
        refine ⟨_, true, heq, moveTo_WF s _ c hWF hclen, by simp, ?_, fun _ => rfl, ?_⟩
        · intro h
          rcases h with h | h <;> simp [CLAYKIT_KEY_BACKSPACE, CLAYKIT_KEY_DELETE,
            CLAYKIT_KEY_LEFT] at h
        · exact Or.inr (Or.inl (Or.inl rfl))
      · by_cases h4 : key = CLAYKIT_KEY_RIGHT
        · subst h4
          obtain ⟨c, heq, hc⟩ := handleRight_some s (decide (mods &&& CLAYKIT_MOD_SHIFT ≠ 0))
            (decide (mods &&& CLAYKIT_MOD_CTRL ≠ 0)) hWFb
          refine ⟨_, true, heq, moveTo_WF s _ c hWF hc, by simp, ?_, fun _ => rfl, ?_⟩
          · intro h
            rcases h with h | h <;> simp [CLAYKIT_KEY_BACKSPACE, CLAYKIT_KEY_DELETE,
              CLAYKIT_KEY_RIGHT] at h
          · exact Or.inr (Or.inl (Or.inr (Or.inl rfl)))
        · by_cases h5 : key = CLAYKIT_KEY_HOME
          · subst h5
            refine ⟨_, true, rfl, moveTo_WF s _ 0 hWF (by omega), by simp, ?_, fun _ => rfl, ?_⟩
            · intro h
              rcases h with h | h <;> simp [CLAYKIT_KEY_BACKSPACE, CLAYKIT_KEY_DELETE,
                CLAYKIT_KEY_HOME] at h
            · exact Or.inr (Or.inl (Or.inr (Or.inr (Or.inl rfl))))
          · by_cases h6 : key = CLAYKIT_KEY_END
            · subst h6
              refine ⟨_, true, rfl, moveTo_WF s _ s.len hWF (Nat.le_refl _), by simp, ?_,
                fun _ => rfl, ?_⟩
              · intro h
                rcases h with h | h <;> simp [CLAYKIT_KEY_BACKSPACE, CLAYKIT_KEY_DELETE,
                  CLAYKIT_KEY_END] at h
              · exact Or.inr (Or.inl (Or.inr (Or.inr (Or.inr rfl))))
            · refine ⟨s, false, ?_, hWF, fun _ => rfl, ?_, ?_, Or.inr (Or.inr ⟨rfl, rfl⟩)⟩
              · unfold ClayKit_InputHandleKey
                rw [if_neg h1, if_neg h2, if_neg h3, if_neg h4, if_neg h5, if_neg h6]
              · intro h
                rcases h with h | h <;> exact absurd h (by assumption)
              · intro h
                rcases h with h | h | h | h <;> exact absurd h (by assumption)

theorem handleChar_master (s : InputState) (cp : Nat) (hWF : WF s) :
    ∃ t b, ClayKit_InputHandleChar s cp = some (t, b) ∧ WF t ∧
      (b = false → t = s) ∧ (b = true → t ≠ s) := by
  have hWFb := hWF.1
  by_cases hpr : cp < 32 ∨ 126 < cp
  · exact ⟨s, false, handleChar_nonprint s cp hpr, hWF, fun _ => rfl,
      fun hb => absurd hb (by simp)⟩
  · have h32 : 32 ≤ cp := by omega
    have h126 : cp ≤ 126 := by omega
    by_cases hne : s.cursor ≠ s.select_start
    · obtain ⟨s1, t, _, hC, hb1, _, _, heq, hI, hbt⟩ := handleChar_sel_insert s cp hWFb hpr hne
      refine ⟨t, true, heq, InsertOf_WF s1 t cp (CollapseOf_WF s s1 hWF hb1 hC) hbt hI h32 h126,
        by simp, ?_⟩
      intro _ ht
      apply hne
      have hts : t.cursor = t.select_start := by
        rw [hI.2.2.2.1, hI.2.2.2.2.1]
      rw [ht] at hts
      exact hts
    · push_neg at hne
      have hcap1 := hWFb.2.1
      have hlen := hWFb.2.2.2.1
      by_cases hcap : s.cap - 1 ≤ s.len
      · exact ⟨s, false, handleChar_capacity s cp hWFb hpr hne hcap, hWF, fun _ => rfl,
          fun hb => absurd hb (by simp)⟩
      · obtain ⟨t, heq, hI, hbt⟩ := handleChar_noSel_insert s cp hWFb hpr hne (by omega)
        refine ⟨t, true, heq, InsertOf_WF s t cp hWF hbt hI h32 h126, by simp, ?_⟩
        intro _ ht
        have hlen1 := hI.2.2.1
        rw [ht] at hlen1
        omega

/-! ## Claim theorems -/

/-- C1: For every EditBuffer satisfying the invariant set (`length ≤ cap − 1`,
`cursor ≤ length`, `selection_anchor ≤ length`, all bytes in
`storage[0..length)` printable ASCII 0x20–0x7E) and every key, modifier mask,
and code point, the buffer still satisfies the full invariant set after any
call to `ClayKit_InputHandleKey` or `ClayKit_InputHandleChar` (and both calls
complete without a fault). -/
theorem C1_invariant_preservation (s : InputState) (key mods cp : Nat) (hWF : WF s) :
    (∃ t b, ClayKit_InputHandleKey s key mods = some (t, b) ∧ WF t) ∧
    (∃ t b, ClayKit_InputHandleChar s cp = some (t, b) ∧ WF t) := by
  obtain ⟨t, b, heq, hWF', _⟩ := handleKey_master s key mods hWF
  obtain ⟨u, c, heq', hWF'', _⟩ := handleChar_master s cp hWF
  exact ⟨⟨t, b, heq, hWF'⟩, ⟨u, c, heq', hWF''⟩⟩

theorem C1_invariant_preservation_witness :
    WF ⟨[72, 105, 0, 0], 4, 2, 1, 1⟩ ∧
      ((∃ t b, ClayKit_InputHandleKey ⟨[72, 105, 0, 0], 4, 2, 1, 1⟩ 1 0 = some (t, b) ∧ WF t) ∧
       (∃ t b, ClayKit_InputHandleChar ⟨[72, 105, 0, 0], 4, 2, 1, 1⟩ 65 = some (t, b) ∧ WF t)) :=
  ⟨by decide, C1_invariant_preservation ⟨[72, 105, 0, 0], 4, 2, 1, 1⟩ 1 0 65 (by decide)⟩

/-- C9: For every EditBuffer satisfying the bound invariants
(`cursor ≤ length ≤ cap − 1`, `selection_anchor ≤ length`, `cap ≥ 1`, with the
allocation of exactly `cap` `uint32`-sized bytes), every storage-array access
performed by `ClayKit_InputHandleKey`, `ClayKit_InputHandleChar` and
`claykit_input_delete_selection` is in bounds and every guarded `uint32`
subtraction cannot underflow: the `none` (out-of-bounds / underflow) branches
of the checked embedding are unreachable, i.e. all three calls return `some`. -/
theorem C9_memory_safety (s : InputState) (key mods cp : Nat) (hb : WFb s) :
    (claykit_input_delete_selection s).isSome ∧
    (ClayKit_InputHandleKey s key mods).isSome ∧
    (ClayKit_InputHandleChar s cp).isSome := by
  refine ⟨?_, ?_, ?_⟩
  · by_cases hne : s.cursor = s.select_start
    · rw [delete_selection_noop s hne]
      rfl
    · obtain ⟨t, heq, _⟩ := delete_selection_some s hb hne
      rw [heq]
      rfl
  · by_cases h1 : key = CLAYKIT_KEY_BACKSPACE
    · subst h1
      show (handleBackspace s).isSome
      by_cases hne : s.cursor ≠ s.select_start
      · obtain ⟨t, heq, _⟩ := handleBackspace_sel s hb hne
        rw [heq]; rfl
      · push_neg at hne
        rcases Nat.eq_zero_or_pos s.cursor with h0 | hpos
        · rw [handleBackspace_noop s hne h0]; rfl
        · obtain ⟨t, heq, _⟩ := handleBackspace_char s hb hne hpos
          rw [heq]; rfl
    · by_cases h2 : key = CLAYKIT_KEY_DELETE
      · subst h2
        show (handleDelete s).isSome
        by_cases hne : s.cursor ≠ s.select_start
        · obtain ⟨t, heq, _⟩ := handleDelete_sel s hb hne
          rw [heq]; rfl
        · push_neg at hne
          by_cases hlt : s.cursor < s.len
          · obtain ⟨t, heq, _⟩ := handleDelete_char s hb hne hlt
            rw [heq]; rfl
          · rw [handleDelete_noop s hne (by omega)]; rfl
      · by_cases h3 : key = CLAYKIT_KEY_LEFT
        · subst h3
          show (handleLeft s _ _).isSome
          obtain ⟨c, heq, _⟩ := handleLeft_some s _ _ hb
          rw [heq]; rfl
        · by_cases h4 : key = CLAYKIT_KEY_RIGHT
          · subst h4
            show (handleRight s _ _).isSome
            obtain ⟨c, heq, _⟩ := handleRight_some s _ _ hb
            rw [heq]; rfl
          · by_cases h5 : key = CLAYKIT_KEY_HOME
            · subst h5; rfl
            · by_cases h6 : key = CLAYKIT_KEY_END
              · subst h6; rfl
              · unfold ClayKit_InputHandleKey
                rw [if_neg h1, if_neg h2, if_neg h3, if_neg h4, if_neg h5, if_neg h6]
                rfl
  · by_cases hpr : cp < 32 ∨ 126 < cp
    · rw [handleChar_nonprint s cp hpr]; rfl
    · by_cases hne : s.cursor ≠ s.select_start
      · obtain ⟨s1, t, _, _, _, _, _, heq, _⟩ := handleChar_sel_insert s cp hb hpr hne
        rw [heq]; rfl
      · push_neg at hne
        by_cases hcap : s.cap - 1 ≤ s.len
        · rw [handleChar_capacity s cp hb hpr hne hcap]; rfl
        · obtain ⟨t, heq, _⟩ := handleChar_noSel_insert s cp hb hpr hne (by omega)
          rw [heq]; rfl

theorem C9_memory_safety_witness :
    WFb ⟨[72, 105, 0, 0], 4, 2, 0, 2⟩ ∧
      ((claykit_input_delete_selection ⟨[72, 105, 0, 0], 4, 2, 0, 2⟩).isSome ∧
       (ClayKit_InputHandleKey ⟨[72, 105, 0, 0], 4, 2, 0, 2⟩ 2 0).isSome ∧
       (ClayKit_InputHandleChar ⟨[72, 105, 0, 0], 4, 2, 0, 2⟩ 120).isSome) :=
  ⟨by decide, C9_memory_safety ⟨[72, 105, 0, 0], 4, 2, 0, 2⟩ 2 0 120 (by decide)⟩

/-- C10: When the `measure_text` callback is absent (`NULL`),
`ClayKit_InputGetCursorFromX` returns `0` for every text, font and offset —
the function short-circuits on the missing callback — and every measurement
through `ClayKit_MeasureTextWidth` reports width `0`. -/
theorem C10_null_measurer (ctx : ClayKit_Context) (hm : ctx.measure_text = none) :
    (∀ (text : List Nat) (length font_id font_size : Nat) (x : ℚ),
      ClayKit_InputGetCursorFromX ctx text length font_id font_size x = 0) ∧
    (∀ (text : List Nat) (length font_id font_size : Nat),
      ClayKit_MeasureTextWidth ctx text length font_id font_size = 0) := by
  constructor
  · intro text length font_id font_size x
    unfold ClayKit_InputGetCursorFromX
    rw [if_pos (Or.inl (by rw [hm]; rfl))]
  · intro text length font_id font_size
    unfold ClayKit_MeasureTextWidth
    rw [hm]

theorem C10_null_measurer_witness :
    (ClayKit_Context.mk none).measure_text = none ∧
      ((∀ (text : List Nat) (length font_id font_size : Nat) (x : ℚ),
        ClayKit_InputGetCursorFromX ⟨none⟩ text length font_id font_size x = 0) ∧
       (∀ (text : List Nat) (length font_id font_size : Nat),
        ClayKit_MeasureTextWidth ⟨none⟩ text length font_id font_size = 0)) :=
  ⟨rfl, C10_null_measurer ⟨none⟩ rfl⟩

/-- C2 counterexample: the claim "the returned boolean is true iff the call
changed the buffer state; in particular an arrow key already at an extreme is
a no-op that returns false" fails on the code.  On the freshly initialized
(hence reachable) buffer, ArrowLeft with cursor already at 0 changes nothing
yet `ClayKit_InputHandleKey` returns `true`. -/
theorem C2_counterexample :
    WF ⟨[0, 0, 0, 0], 4, 0, 0, 0⟩ ∧
      ClayKit_InputHandleKey ⟨[0, 0, 0, 0], 4, 0, 0, 0⟩ CLAYKIT_KEY_LEFT 0 =
        some (⟨[0, 0, 0, 0], 4, 0, 0, 0⟩, true) :=
  ⟨by decide, by decide⟩

/-- C2 (amended): `ClayKit_InputHandleChar` and the Backspace/Delete cases of
`ClayKit_InputHandleKey` return true iff the call changed the buffer state,
and the listed boundary operations there (backspace at index 0, delete at
end, typing past capacity, typing a non-printable code point) are no-ops
returning false; but the arrow/Home/End cases always return true, even when
the cursor is already at an extreme and nothing changes.  Unrecognized keys
are no-ops returning false. -/
theorem C2_amended_change_flag (s : InputState) (key mods cp : Nat) (hWF : WF s) :
    (∀ t b, ClayKit_InputHandleChar s cp = some (t, b) → (b = true ↔ t ≠ s)) ∧
    ((key = CLAYKIT_KEY_BACKSPACE ∨ key = CLAYKIT_KEY_DELETE) →
      ∀ t b, ClayKit_InputHandleKey s key mods = some (t, b) → (b = true ↔ t ≠ s)) ∧
    ((key = CLAYKIT_KEY_LEFT ∨ key = CLAYKIT_KEY_RIGHT ∨ key = CLAYKIT_KEY_HOME ∨
      key = CLAYKIT_KEY_END) →
      ∀ t b, ClayKit_InputHandleKey s key mods = some (t, b) → b = true) ∧
    (¬ (key = CLAYKIT_KEY_BACKSPACE ∨ key = CLAYKIT_KEY_DELETE ∨ key = CLAYKIT_KEY_LEFT ∨
        key = CLAYKIT_KEY_RIGHT ∨ key = CLAYKIT_KEY_HOME ∨ key = CLAYKIT_KEY_END) →
      ClayKit_InputHandleKey s key mods = some (s, false)) ∧
    (s.cursor = s.select_start → s.cursor = 0 →
      ClayKit_InputHandleKey s CLAYKIT_KEY_BACKSPACE mods = some (s, false)) ∧
    (s.cursor = s.select_start → s.cursor = s.len →
      ClayKit_InputHandleKey s CLAYKIT_KEY_DELETE mods = some (s, false)) ∧
    (s.cursor = s.select_start → s.cap - 1 ≤ s.len →
      ClayKit_InputHandleChar s cp = some (s, false)) ∧
    (cp < 32 ∨ 126 < cp → ClayKit_InputHandleChar s cp = some (s, false)) := by
  obtain ⟨t0, b0, heq0, _, hf0, ht0⟩ := handleChar_master s cp hWF
  obtain ⟨t1, b1, heq1, _, hf1, hbd1, harr1, hdef1⟩ := handleKey_master s key mods hWF
  refine ⟨?_, ?_, ?_, ?_, ?_, ?_, ?_, ?_⟩
  · intro t b h
    rw [h] at heq0
    simp only [Option.some.injEq, Prod.mk.injEq] at heq0
    obtain ⟨ht, hb⟩ := heq0
    subst ht
    subst hb
    constructor
    · exact ht0
    · intro hne
      cases b with
      | true => rfl
      | false => exact absurd (hf0 rfl) hne
  · intro hk t b h
    rw [h] at heq1
    simp only [Option.some.injEq, Prod.mk.injEq] at heq1
    obtain ⟨ht, hb⟩ := heq1
    subst ht
    subst hb
    constructor
    · exact hbd1 hk
    · intro hne
      cases b with
      | true => rfl
      | false => exact absurd (hf1 rfl) hne
  · intro hk t b h
    rw [h] at heq1
    simp only [Option.some.injEq, Prod.mk.injEq] at heq1
    obtain ⟨ht, hb⟩ := heq1
    subst ht
    subst hb
    exact harr1 hk
  · intro hk
    push_neg at hk
    obtain ⟨n1, n2, n3, n4, n5, n6⟩ := hk
    rcases hdef1 with h | h | ⟨hb, ht⟩
    · rcases h with h | h
      · exact absurd h n1
      · exact absurd h n2
    · rcases h with h | h | h | h
      · exact absurd h n3
      · exact absurd h n4
      · exact absurd h n5
      · exact absurd h n6
    · rw [hb, ht] at heq1
      exact heq1
  · intro heqsel h0
    have hdis : ClayKit_InputHandleKey s CLAYKIT_KEY_BACKSPACE mods = handleBackspace s := rfl
    exact hdis.trans (handleBackspace_noop s heqsel h0)
  · intro heqsel hend
    have hdis : ClayKit_InputHandleKey s CLAYKIT_KEY_DELETE mods = handleDelete s := rfl
    exact hdis.trans (handleDelete_noop s heqsel (by omega))
  · intro heqsel hcap
    by_cases hpr : cp < 32 ∨ 126 < cp
    · exact handleChar_nonprint s cp hpr
    · exact handleChar_capacity s cp hWF.1 hpr heqsel hcap
  · exact handleChar_nonprint s cp

theorem C2_amended_change_flag_witness :
    WF ⟨[72, 105, 0, 0], 4, 2, 2, 2⟩ ∧
      ((∀ t b, ClayKit_InputHandleChar ⟨[72, 105, 0, 0], 4, 2, 2, 2⟩ 65 = some (t, b) →
          (b = true ↔ t ≠ ⟨[72, 105, 0, 0], 4, 2, 2, 2⟩)) ∧
       (((1 : Nat) = CLAYKIT_KEY_BACKSPACE ∨ (1 : Nat) = CLAYKIT_KEY_DELETE) →
         ∀ t b, ClayKit_InputHandleKey ⟨[72, 105, 0, 0], 4, 2, 2, 2⟩ 1 0 = some (t, b) →
           (b = true ↔ t ≠ ⟨[72, 105, 0, 0], 4, 2, 2, 2⟩)) ∧
       (((1 : Nat) = CLAYKIT_KEY_LEFT ∨ (1 : Nat) = CLAYKIT_KEY_RIGHT ∨
         (1 : Nat) = CLAYKIT_KEY_HOME ∨ (1 : Nat) = CLAYKIT_KEY_END) →
         ∀ t b, ClayKit_InputHandleKey ⟨[72, 105, 0, 0], 4, 2, 2, 2⟩ 1 0 = some (t, b) →
           b = true) ∧
       (¬ ((1 : Nat) = CLAYKIT_KEY_BACKSPACE ∨ (1 : Nat) = CLAYKIT_KEY_DELETE ∨
           (1 : Nat) = CLAYKIT_KEY_LEFT ∨ (1 : Nat) = CLAYKIT_KEY_RIGHT ∨
           (1 : Nat) = CLAYKIT_KEY_HOME ∨ (1 : Nat) = CLAYKIT_KEY_END) →
         ClayKit_InputHandleKey ⟨[72, 105, 0, 0], 4, 2, 2, 2⟩ 1 0 =
           some (⟨[72, 105, 0, 0], 4, 2, 2, 2⟩, false)) ∧
       ((⟨[72, 105, 0, 0], 4, 2, 2, 2⟩ : InputState).cursor =
          (⟨[72, 105, 0, 0], 4, 2, 2, 2⟩ : InputState).select_start →
        (⟨[72, 105, 0, 0], 4, 2, 2, 2⟩ : InputState).cursor = 0 →
        ClayKit_InputHandleKey ⟨[72, 105, 0, 0], 4, 2, 2, 2⟩ CLAYKIT_KEY_BACKSPACE 0 =
          some (⟨[72, 105, 0, 0], 4, 2, 2, 2⟩, false)) ∧
       ((⟨[72, 105, 0, 0], 4, 2, 2, 2⟩ : InputState).cursor =
          (⟨[72, 105, 0, 0], 4, 2, 2, 2⟩ : InputState).select_start →
        (⟨[72, 105, 0, 0], 4, 2, 2, 2⟩ : InputState).cursor =
          (⟨[72, 105, 0, 0], 4, 2, 2, 2⟩ : InputState).len →
        ClayKit_InputHandleKey ⟨[72, 105, 0, 0], 4, 2, 2, 2⟩ CLAYKIT_KEY_DELETE 0 =
          some (⟨[72, 105, 0, 0], 4, 2, 2, 2⟩, false)) ∧
       ((⟨[72, 105, 0, 0], 4, 2, 2, 2⟩ : InputState).cursor =
          (⟨[72, 105, 0, 0], 4, 2, 2, 2⟩ : InputState).select_start →
        (⟨[72, 105, 0, 0], 4, 2, 2, 2⟩ : InputState).cap - 1 ≤
          (⟨[72, 105, 0, 0], 4, 2, 2, 2⟩ : InputState).len →
        ClayKit_InputHandleChar ⟨[72, 105, 0, 0], 4, 2, 2, 2⟩ 65 =
          some (⟨[72, 105, 0, 0], 4, 2, 2, 2⟩, false)) ∧
       ((65 : Nat) < 32 ∨ (126 : Nat) < 65 →
        ClayKit_InputHandleChar ⟨[72, 105, 0, 0], 4, 2, 2, 2⟩ 65 =
          some (⟨[72, 105, 0, 0], 4, 2, 2, 2⟩, false))) :=
  ⟨by decide, C2_amended_change_flag ⟨[72, 105, 0, 0], 4, 2, 2, 2⟩ 1 0 65 (by decide)⟩

/-- C3: For every EditBuffer satisfying the invariants and every code point
`cp`, `ClayKit_InputHandleChar` inserts `cp` as one byte iff `cp ∈ [0x20, 0x7E]`
and capacity allows: outside that range it returns false with no change;
otherwise it first collapses an active selection, then returns false if
`length ≥ cap − 1`, and otherwise shifts `storage[cursor..length)` right by
one, writes the byte at `cursor`, increments `length` and `cursor`, sets
`selection_anchor = cursor`, and returns true. -/
theorem C3_handleChar_contract (s : InputState) (cp : Nat) (hWF : WF s) :
    (cp < 32 ∨ 126 < cp → ClayKit_InputHandleChar s cp = some (s, false)) ∧
    (32 ≤ cp → cp ≤ 126 →
      ∃ s1, ((s.cursor = s.select_start ∧ s1 = s) ∨
             (s.cursor ≠ s.select_start ∧ CollapseOf s s1)) ∧
        (s1.cap - 1 ≤ s1.len → ClayKit_InputHandleChar s cp = some (s1, false)) ∧
        (s1.len < s1.cap - 1 →
          ∃ t, ClayKit_InputHandleChar s cp = some (t, true) ∧ InsertOf s1 cp t)) := by
  have hb := hWF.1
  refine ⟨handleChar_nonprint s cp, ?_⟩
  intro h32 h126
  have hpr : ¬ (cp < 32 ∨ 126 < cp) := by omega
  by_cases hne : s.cursor ≠ s.select_start
  · obtain ⟨s1, t, _, hC, hb1, _, hlt1, heq, hI, _⟩ := handleChar_sel_insert s cp hb hpr hne
    refine ⟨s1, Or.inr ⟨hne, hC⟩, ?_, fun _ => ⟨t, heq, hI⟩⟩
    intro hcap
    omega
  · push_neg at hne
    refine ⟨s, Or.inl ⟨hne, rfl⟩, ?_, ?_⟩
    · intro hcap
      exact handleChar_capacity s cp hb hpr hne hcap
    · intro hlt
      obtain ⟨t, heq, hI, _⟩ := handleChar_noSel_insert s cp hb hpr hne hlt
      exact ⟨t, heq, hI⟩

theorem C3_handleChar_contract_witness :
    WF ⟨[72, 105, 0, 0], 4, 2, 1, 1⟩ ∧
      ((65 < 32 ∨ 126 < 65 → ClayKit_InputHandleChar ⟨[72, 105, 0, 0], 4, 2, 1, 1⟩ 65 =
          some (⟨[72, 105, 0, 0], 4, 2, 1, 1⟩, false)) ∧
       (32 ≤ 65 → 65 ≤ 126 →
        ∃ s1, (((⟨[72, 105, 0, 0], 4, 2, 1, 1⟩ : InputState).cursor =
                  (⟨[72, 105, 0, 0], 4, 2, 1, 1⟩ : InputState).select_start ∧
                 s1 = ⟨[72, 105, 0, 0], 4, 2, 1, 1⟩) ∨
               ((⟨[72, 105, 0, 0], 4, 2, 1, 1⟩ : InputState).cursor ≠
                  (⟨[72, 105, 0, 0], 4, 2, 1, 1⟩ : InputState).select_start ∧
                CollapseOf ⟨[72, 105, 0, 0], 4, 2, 1, 1⟩ s1)) ∧
          (s1.cap - 1 ≤ s1.len → ClayKit_InputHandleChar ⟨[72, 105, 0, 0], 4, 2, 1, 1⟩ 65 =
            some (s1, false)) ∧
          (s1.len < s1.cap - 1 →
            ∃ t, ClayKit_InputHandleChar ⟨[72, 105, 0, 0], 4, 2, 1, 1⟩ 65 = some (t, true) ∧
              InsertOf s1 65 t))) :=
  ⟨by decide, C3_handleChar_contract ⟨[72, 105, 0, 0], 4, 2, 1, 1⟩ 65 (by decide)⟩

/-- C4: For every EditBuffer satisfying the invariants, Backspace with no
modifiers collapses an active selection (removing the selected bytes, shifting
the tail left by the selection width, putting `cursor` and `selection_anchor`
on the selection's start) and returns true; with no selection and `cursor > 0`
it removes the byte at `cursor − 1` by shifting `storage[cursor..length)` left
by one, decrements `length` and `cursor`, sets `selection_anchor = cursor`,
and returns true; with no selection and `cursor = 0` it changes nothing and
returns false. -/
theorem C4_backspace_contract (s : InputState) (hWF : WF s) :
    (s.cursor ≠ s.select_start →
      ∃ t, ClayKit_InputHandleKey s CLAYKIT_KEY_BACKSPACE 0 = some (t, true) ∧
        CollapseOf s t) ∧
    (s.cursor = s.select_start → 0 < s.cursor →
      ∃ t, ClayKit_InputHandleKey s CLAYKIT_KEY_BACKSPACE 0 = some (t, true) ∧
        BackOneOf s t) ∧
    (s.cursor = s.select_start → s.cursor = 0 →
      ClayKit_InputHandleKey s CLAYKIT_KEY_BACKSPACE 0 = some (s, false)) := by
  have hb := hWF.1
  have hdis : ClayKit_InputHandleKey s CLAYKIT_KEY_BACKSPACE 0 = handleBackspace s := rfl
  refine ⟨?_, ?_, ?_⟩
  · intro hne
    obtain ⟨t, heq, hC, _⟩ := handleBackspace_sel s hb hne
    exact ⟨t, hdis.trans heq, hC⟩
  · intro heq hpos
    obtain ⟨t, heqb, hB, _⟩ := handleBackspace_char s hb heq hpos
    exact ⟨t, hdis.trans heqb, hB⟩
  · intro heq h0
    exact hdis.trans (handleBackspace_noop s heq h0)

theorem C4_backspace_contract_witness :
    WF ⟨[72, 101, 108, 108, 111, 0], 6, 5, 5, 5⟩ ∧
      (((⟨[72, 101, 108, 108, 111, 0], 6, 5, 5, 5⟩ : InputState).cursor ≠
          (⟨[72, 101, 108, 108, 111, 0], 6, 5, 5, 5⟩ : InputState).select_start →
        ∃ t, ClayKit_InputHandleKey ⟨[72, 101, 108, 108, 111, 0], 6, 5, 5, 5⟩
            CLAYKIT_KEY_BACKSPACE 0 = some (t, true) ∧
          CollapseOf ⟨[72, 101, 108, 108, 111, 0], 6, 5, 5, 5⟩ t) ∧
       ((⟨[72, 101, 108, 108, 111, 0], 6, 5, 5, 5⟩ : InputState).cursor =
          (⟨[72, 101, 108, 108, 111, 0], 6, 5, 5, 5⟩ : InputState).select_start →
        0 < (⟨[72, 101, 108, 108, 111, 0], 6, 5, 5, 5⟩ : InputState).cursor →
        ∃ t, ClayKit_InputHandleKey ⟨[72, 101, 108, 108, 111, 0], 6, 5, 5, 5⟩
            CLAYKIT_KEY_BACKSPACE 0 = some (t, true) ∧
          BackOneOf ⟨[72, 101, 108, 108, 111, 0], 6, 5, 5, 5⟩ t) ∧
       ((⟨[72, 101, 108, 108, 111, 0], 6, 5, 5, 5⟩ : InputState).cursor =
          (⟨[72, 101, 108, 108, 111, 0], 6, 5, 5, 5⟩ : InputState).select_start →
        (⟨[72, 101, 108, 108, 111, 0], 6, 5, 5, 5⟩ : InputState).cursor = 0 →
        ClayKit_InputHandleKey ⟨[72, 101, 108, 108, 111, 0], 6, 5, 5, 5⟩
            CLAYKIT_KEY_BACKSPACE 0 =
          some (⟨[72, 101, 108, 108, 111, 0], 6, 5, 5, 5⟩, false))) :=
  ⟨by decide, C4_backspace_contract ⟨[72, 101, 108, 108, 111, 0], 6, 5, 5, 5⟩ (by decide)⟩

/-- C5 counterexample: the claim's parenthetical landing spot is wrong.  On
`storage = "ab cd"` (bytes `[97, 98, 32, 99, 100]`), `cursor = 0`, Ctrl+Right
skips the non-space run "ab" and the following space, and the cursor lands at
index 3 — the *start* of the next word "cd", which occupies `[3, 5)` — not
"just past the next word", which would be index 5. -/
theorem C5_counterexample :
    WF ⟨[97, 98, 32, 99, 100, 0, 0, 0], 8, 5, 0, 0⟩ ∧
      ClayKit_InputHandleKey ⟨[97, 98, 32, 99, 100, 0, 0, 0], 8, 5, 0, 0⟩
          CLAYKIT_KEY_RIGHT CLAYKIT_MOD_CTRL =
        some (⟨[97, 98, 32, 99, 100, 0, 0, 0], 8, 5, 3, 3⟩, true) ∧
      (∀ j, 3 ≤ j → j < 5 → List.getD [97, 98, 32, 99, 100, 0, 0, 0] j 0 ≠ 32) ∧
      (3 : Nat) ≠ 5 :=
  ⟨by decide, by decide, by decide, by decide⟩

/-- C5 (amended): for every EditBuffer satisfying the invariants, ArrowRight
with Ctrl set moves the cursor by skipping the current word's remaining
non-space run and then the following space run, landing at the start of the
next word (or at end of text); if Shift is not set, `selection_anchor` is then
set equal to `cursor`. -/
theorem C5_ctrl_right (s : InputState) (mods : Nat) (hWF : WF s)
    (hctrl : mods &&& CLAYKIT_MOD_CTRL ≠ 0) :
    ∃ t m, ClayKit_InputHandleKey s CLAYKIT_KEY_RIGHT mods = some (t, true) ∧
      t.buf = s.buf ∧ t.len = s.len ∧ t.cap = s.cap ∧
      s.cursor ≤ m ∧ m ≤ t.cursor ∧ t.cursor ≤ s.len ∧
      (∀ j, s.cursor ≤ j → j < m → s.buf.getD j 0 ≠ 32) ∧
      (m = s.len ∨ s.buf.getD m 0 = 32) ∧
      (∀ j, m ≤ j → j < t.cursor → s.buf.getD j 0 = 32) ∧
      (t.cursor = s.len ∨ s.buf.getD t.cursor 0 ≠ 32) ∧
      (mods &&& CLAYKIT_MOD_SHIFT = 0 → t.select_start = t.cursor) := by
  have hb := hWF.1
  have hdis : ClayKit_InputHandleKey s CLAYKIT_KEY_RIGHT mods =
      handleRight s (decide (mods &&& CLAYKIT_MOD_SHIFT ≠ 0))
        (decide (mods &&& CLAYKIT_MOD_CTRL ≠ 0)) := rfl
  have hctrlb : decide (mods &&& CLAYKIT_MOD_CTRL ≠ 0) = true := decide_eq_true hctrl
  obtain ⟨c, m, heq, hm1, hc1, hcl, hall1, hstop1, hall2, hstop2⟩ :=
    handleRight_ctrl s (decide (mods &&& CLAYKIT_MOD_SHIFT ≠ 0)) hb
  refine ⟨moveTo s (decide (mods &&& CLAYKIT_MOD_SHIFT ≠ 0)) c, m,
    by rw [hdis, hctrlb]; exact heq, rfl, rfl, rfl, hm1, hc1, hcl,
    hall1, hstop1, hall2, hstop2, ?_⟩
  intro hshift
  show (if decide (mods &&& CLAYKIT_MOD_SHIFT ≠ 0) = true then s.select_start else c) = c
  rw [if_neg]
  simp [hshift]

theorem C5_ctrl_right_witness :
    WF ⟨[97, 98, 32, 99, 100, 0, 0, 0], 8, 5, 0, 0⟩ ∧ (2 : Nat) &&& CLAYKIT_MOD_CTRL ≠ 0 ∧
      (∃ t m, ClayKit_InputHandleKey ⟨[97, 98, 32, 99, 100, 0, 0, 0], 8, 5, 0, 0⟩
            CLAYKIT_KEY_RIGHT 2 = some (t, true) ∧
        t.buf = (⟨[97, 98, 32, 99, 100, 0, 0, 0], 8, 5, 0, 0⟩ : InputState).buf ∧
        t.len = (⟨[97, 98, 32, 99, 100, 0, 0, 0], 8, 5, 0, 0⟩ : InputState).len ∧
        t.cap = (⟨[97, 98, 32, 99, 100, 0, 0, 0], 8, 5, 0, 0⟩ : InputState).cap ∧
        (⟨[97, 98, 32, 99, 100, 0, 0, 0], 8, 5, 0, 0⟩ : InputState).cursor ≤ m ∧
        m ≤ t.cursor ∧
        t.cursor ≤ (⟨[97, 98, 32, 99, 100, 0, 0, 0], 8, 5, 0, 0⟩ : InputState).len ∧
        (∀ j, (⟨[97, 98, 32, 99, 100, 0, 0, 0], 8, 5, 0, 0⟩ : InputState).cursor ≤ j →
          j < m →
          (⟨[97, 98, 32, 99, 100, 0, 0, 0], 8, 5, 0, 0⟩ : InputState).buf.getD j 0 ≠ 32) ∧
        (m = (⟨[97, 98, 32, 99, 100, 0, 0, 0], 8, 5, 0, 0⟩ : InputState).len ∨
          (⟨[97, 98, 32, 99, 100, 0, 0, 0], 8, 5, 0, 0⟩ : InputState).buf.getD m 0 = 32) ∧
        (∀ j, m ≤ j → j < t.cursor →
          (⟨[97, 98, 32, 99, 100, 0, 0, 0], 8, 5, 0, 0⟩ : InputState).buf.getD j 0 = 32) ∧
        (t.cursor = (⟨[97, 98, 32, 99, 100, 0, 0, 0], 8, 5, 0, 0⟩ : InputState).len ∨
          (⟨[97, 98, 32, 99, 100, 0, 0, 0], 8, 5, 0, 0⟩ : InputState).buf.getD t.cursor 0
            ≠ 32) ∧
        ((2 : Nat) &&& CLAYKIT_MOD_SHIFT = 0 → t.select_start = t.cursor)) :=
  ⟨by decide, by decide,
    C5_ctrl_right ⟨[97, 98, 32, 99, 100, 0, 0, 0], 8, 5, 0, 0⟩ 2 (by decide) (by decide)⟩

/-- C6: For every EditBuffer satisfying the invariants, ArrowLeft with Ctrl
set moves the cursor left past any run of spaces immediately to its left, then
left past the following run of non-spaces, landing at the start of the
previous word; in particular on `storage = "Hello World Test"` with
`length = 16`, `cursor = selection_anchor = 16`, two consecutive
Ctrl+ArrowLeft calls move the cursor to 12 and then to 6. -/
theorem C6_ctrl_left (s : InputState) (mods : Nat) (hWF : WF s)
    (hctrl : mods &&& CLAYKIT_MOD_CTRL ≠ 0) :
    (∃ t m, ClayKit_InputHandleKey s CLAYKIT_KEY_LEFT mods = some (t, true) ∧
      t.buf = s.buf ∧ t.len = s.len ∧ t.cap = s.cap ∧
      t.cursor ≤ m ∧ m ≤ s.cursor ∧
      (∀ j, m ≤ j → j < s.cursor → s.buf.getD j 0 = 32) ∧
      (m = 0 ∨ s.buf.getD (m - 1) 0 ≠ 32) ∧
      (∀ j, t.cursor ≤ j → j < m → s.buf.getD j 0 ≠ 32) ∧
      (t.cursor = 0 ∨ s.buf.getD (t.cursor - 1) 0 = 32) ∧
      (mods &&& CLAYKIT_MOD_SHIFT = 0 → t.select_start = t.cursor)) ∧
    (ClayKit_InputHandleKey
        ⟨[72, 101, 108, 108, 111, 32, 87, 111, 114, 108, 100, 32, 84, 101, 115, 116,
          0, 0, 0, 0], 20, 16, 16, 16⟩ CLAYKIT_KEY_LEFT CLAYKIT_MOD_CTRL =
      some (⟨[72, 101, 108, 108, 111, 32, 87, 111, 114, 108, 100, 32, 84, 101, 115, 116,
          0, 0, 0, 0], 20, 16, 12, 12⟩, true) ∧
     ClayKit_InputHandleKey
        ⟨[72, 101, 108, 108, 111, 32, 87, 111, 114, 108, 100, 32, 84, 101, 115, 116,
          0, 0, 0, 0], 20, 16, 12, 12⟩ CLAYKIT_KEY_LEFT CLAYKIT_MOD_CTRL =
      some (⟨[72, 101, 108, 108, 111, 32, 87, 111, 114, 108, 100, 32, 84, 101, 115, 116,
          0, 0, 0, 0], 20, 16, 6, 6⟩, true)) := by
  have hb := hWF.1
  have hdis : ClayKit_InputHandleKey s CLAYKIT_KEY_LEFT mods =
      handleLeft s (decide (mods &&& CLAYKIT_MOD_SHIFT ≠ 0))
        (decide (mods &&& CLAYKIT_MOD_CTRL ≠ 0)) := rfl
  have hctrlb : decide (mods &&& CLAYKIT_MOD_CTRL ≠ 0) = true := decide_eq_true hctrl
  obtain ⟨c, m, heq, hc1, hm1, hall1, hstop1, hall2, hstop2⟩ :=
    handleLeft_ctrl s (decide (mods &&& CLAYKIT_MOD_SHIFT ≠ 0)) hb
  refine ⟨⟨moveTo s (decide (mods &&& CLAYKIT_MOD_SHIFT ≠ 0)) c, m,
    by rw [hdis, hctrlb]; exact heq, rfl, rfl, rfl, hc1, hm1,
    hall1, hstop1, hall2, hstop2, ?_⟩, by decide, by decide⟩
  intro hshift
  show (if decide (mods &&& CLAYKIT_MOD_SHIFT ≠ 0) = true then s.select_start else c) = c
  rw [if_neg]
  simp [hshift]

theorem C6_ctrl_left_witness :
    WF ⟨[72, 101, 108, 108, 111, 32, 87, 111, 114, 108, 100, 32, 84, 101, 115, 116,
        0, 0, 0, 0], 20, 16, 16, 16⟩ ∧
      (2 : Nat) &&& CLAYKIT_MOD_CTRL ≠ 0 ∧
      ((∃ t m, ClayKit_InputHandleKey
            ⟨[72, 101, 108, 108, 111, 32, 87, 111, 114, 108, 100, 32, 84, 101, 115, 116,
              0, 0, 0, 0], 20, 16, 16, 16⟩ CLAYKIT_KEY_LEFT 2 = some (t, true) ∧
        t.buf = (⟨[72, 101, 108, 108, 111, 32, 87, 111, 114, 108, 100, 32, 84, 101, 115,
              116, 0, 0, 0, 0], 20, 16, 16, 16⟩ : InputState).buf ∧
        t.len = (⟨[72, 101, 108, 108, 111, 32, 87, 111, 114, 108, 100, 32, 84, 101, 115,
              116, 0, 0, 0, 0], 20, 16, 16, 16⟩ : InputState).len ∧
        t.cap = (⟨[72, 101, 108, 108, 111, 32, 87, 111, 114, 108, 100, 32, 84, 101, 115,
              116, 0, 0, 0, 0], 20, 16, 16, 16⟩ : InputState).cap ∧
        t.cursor ≤ m ∧
        m ≤ (⟨[72, 101, 108, 108, 111, 32, 87, 111, 114, 108, 100, 32, 84, 101, 115,
              116, 0, 0, 0, 0], 20, 16, 16, 16⟩ : InputState).cursor ∧
        (∀ j, m ≤ j →
          j < (⟨[72, 101, 108, 108, 111, 32, 87, 111, 114, 108, 100, 32, 84, 101, 115,
              116, 0, 0, 0, 0], 20, 16, 16, 16⟩ : InputState).cursor →
          (⟨[72, 101, 108, 108, 111, 32, 87, 111, 114, 108, 100, 32, 84, 101, 115,
              116, 0, 0, 0, 0], 20, 16, 16, 16⟩ : InputState).buf.getD j 0 = 32) ∧
        (m = 0 ∨ (⟨[72, 101, 108, 108, 111, 32, 87, 111, 114, 108, 100, 32, 84, 101, 115,
              116, 0, 0, 0, 0], 20, 16, 16, 16⟩ : InputState).buf.getD (m - 1) 0 ≠ 32) ∧
        (∀ j, t.cursor ≤ j → j < m →
          (⟨[72, 101, 108, 108, 111, 32, 87, 111, 114, 108, 100, 32, 84, 101, 115,
              116, 0, 0, 0, 0], 20, 16, 16, 16⟩ : InputState).buf.getD j 0 ≠ 32) ∧
        (t.cursor = 0 ∨
          (⟨[72, 101, 108, 108, 111, 32, 87, 111, 114, 108, 100, 32, 84, 101, 115,
              116, 0, 0, 0, 0], 20, 16, 16, 16⟩ : InputState).buf.getD (t.cursor - 1) 0
            = 32) ∧
        ((2 : Nat) &&& CLAYKIT_MOD_SHIFT = 0 → t.select_start = t.cursor)) ∧
       (ClayKit_InputHandleKey
          ⟨[72, 101, 108, 108, 111, 32, 87, 111, 114, 108, 100, 32, 84, 101, 115, 116,
            0, 0, 0, 0], 20, 16, 16, 16⟩ CLAYKIT_KEY_LEFT CLAYKIT_MOD_CTRL =
        some (⟨[72, 101, 108, 108, 111, 32, 87, 111, 114, 108, 100, 32, 84, 101, 115, 116,
            0, 0, 0, 0], 20, 16, 12, 12⟩, true) ∧
        ClayKit_InputHandleKey
          ⟨[72, 101, 108, 108, 111, 32, 87, 111, 114, 108, 100, 32, 84, 101, 115, 116,
            0, 0, 0, 0], 20, 16, 12, 12⟩ CLAYKIT_KEY_LEFT CLAYKIT_MOD_CTRL =
        some (⟨[72, 101, 108, 108, 111, 32, 87, 111, 114, 108, 100, 32, 84, 101, 115, 116,
            0, 0, 0, 0], 20, 16, 6, 6⟩, true))) :=
  ⟨by decide, by decide,
    C6_ctrl_left
      ⟨[72, 101, 108, 108, 111, 32, 87, 111, 114, 108, 100, 32, 84, 101, 115, 116,
        0, 0, 0, 0], 20, 16, 16, 16⟩ 2 (by decide) (by decide)⟩

/-- C7 counterexample: insert-then-Backspace does not restore the prior state
when the insertion typed over an active selection.  With `storage = "ab"`,
`cursor = 0`, `selection_anchor = 2` (the whole text selected), inserting 'X'
(code 88) returns true, the following Backspace returns true, but the final
state has `length = 0` while the prior state had `length = 2`: the selected
bytes are not restored. -/
theorem C7_counterexample :
    WF ⟨[97, 98, 0, 0, 0, 0, 0, 0], 8, 2, 0, 2⟩ ∧
      ClayKit_InputHandleChar ⟨[97, 98, 0, 0, 0, 0, 0, 0], 8, 2, 0, 2⟩ 88 =
        some (⟨[88, 98, 0, 0, 0, 0, 0, 0], 8, 1, 1, 1⟩, true) ∧
      ClayKit_InputHandleKey ⟨[88, 98, 0, 0, 0, 0, 0, 0], 8, 1, 1, 1⟩
          CLAYKIT_KEY_BACKSPACE 0 =
        some (⟨[88, 98, 0, 0, 0, 0, 0, 0], 8, 0, 0, 0⟩, true) ∧
      ¬ ((⟨[88, 98, 0, 0, 0, 0, 0, 0], 8, 0, 0, 0⟩ : InputState).len =
           (⟨[97, 98, 0, 0, 0, 0, 0, 0], 8, 2, 0, 2⟩ : InputState).len ∧
         (⟨[88, 98, 0, 0, 0, 0, 0, 0], 8, 0, 0, 0⟩ : InputState).cursor =
           (⟨[97, 98, 0, 0, 0, 0, 0, 0], 8, 2, 0, 2⟩ : InputState).cursor ∧
         (⟨[88, 98, 0, 0, 0, 0, 0, 0], 8, 0, 0, 0⟩ : InputState).select_start =
           (⟨[97, 98, 0, 0, 0, 0, 0, 0], 8, 2, 0, 2⟩ : InputState).select_start ∧
         ∀ j, j < (⟨[97, 98, 0, 0, 0, 0, 0, 0], 8, 2, 0, 2⟩ : InputState).len →
           (⟨[88, 98, 0, 0, 0, 0, 0, 0], 8, 0, 0, 0⟩ : InputState).buf.getD j 0 =
             (⟨[97, 98, 0, 0, 0, 0, 0, 0], 8, 2, 0, 2⟩ : InputState).buf.getD j 0) :=
  ⟨by decide, by decide, by decide, by decide⟩

/-- C7 (amended): for every EditBuffer satisfying the invariants *with no
active selection*, if `ClayKit_InputHandleChar` inserts a character (returns
true), then a following Backspace with no modifiers restores the prior
`(storage[0..length), cursor, selection_anchor)` exactly. -/
theorem C7_insert_backspace_roundtrip (s : InputState) (cp : Nat) (t : InputState)
    (hWF : WF s) (hsel : s.cursor = s.select_start)
    (h : ClayKit_InputHandleChar s cp = some (t, true)) :
    ∃ u, ClayKit_InputHandleKey t CLAYKIT_KEY_BACKSPACE 0 = some (u, true) ∧
      u.len = s.len ∧ u.cursor = s.cursor ∧ u.select_start = s.select_start ∧
      ∀ j, j < s.len → u.buf.getD j 0 = s.buf.getD j 0 := by
  have hb := hWF.1
  by_cases hpr : cp < 32 ∨ 126 < cp
  · rw [handleChar_nonprint s cp hpr] at h
    simp only [Option.some.injEq, Prod.mk.injEq] at h
    exact absurd h.2 (by simp)
  · by_cases hcap : s.cap - 1 ≤ s.len
    · rw [handleChar_capacity s cp hb hpr hsel hcap] at h
      simp only [Option.some.injEq, Prod.mk.injEq] at h
      exact absurd h.2 (by simp)
    · obtain ⟨t', heq, hI, hbt⟩ := handleChar_noSel_insert s cp hb hpr hsel (by omega)
      rw [heq] at h
      simp only [Option.some.injEq, Prod.mk.injEq] at h
      obtain ⟨ht, -⟩ := h
      subst ht
      obtain ⟨hIcap, hIbl, hIlen, hIcur, hIsel, hIlo, hIat, hImid, hIhi⟩ := hI
      have hteq : t'.cursor = t'.select_start := by rw [hIcur, hIsel]
      have htpos : 0 < t'.cursor := by rw [hIcur]; omega
      obtain ⟨u, hequ, hB, _⟩ := handleBackspace_char t' hbt hteq htpos
      obtain ⟨hBcap, hBbl, hBlen, hBcur, hBsel, hBlo, hBmid, hBhi⟩ := hB
      have hdis : ClayKit_InputHandleKey t' CLAYKIT_KEY_BACKSPACE 0 = handleBackspace t' :=
        rfl
      refine ⟨u, hdis.trans hequ, by omega, by omega, ?_, ?_⟩
      · rw [hBsel, hIcur, ← hsel]
        omega
      · intro j hj
        rcases Nat.lt_or_ge j s.cursor with hlt | hge
        · rw [hBlo j (by omega), hIlo j hlt]
        · rw [hBmid j (by omega) (by omega), hImid (j + 1) (by omega) (by omega)]
          rfl

theorem C7_insert_backspace_roundtrip_witness :
    WF ⟨[72, 105, 0, 0], 4, 2, 1, 1⟩ ∧
      (⟨[72, 105, 0, 0], 4, 2, 1, 1⟩ : InputState).cursor =
        (⟨[72, 105, 0, 0], 4, 2, 1, 1⟩ : InputState).select_start ∧
      ClayKit_InputHandleChar ⟨[72, 105, 0, 0], 4, 2, 1, 1⟩ 65 =
        some (⟨[72, 65, 105, 0], 4, 3, 2, 2⟩, true) ∧
      (∃ u, ClayKit_InputHandleKey ⟨[72, 65, 105, 0], 4, 3, 2, 2⟩ CLAYKIT_KEY_BACKSPACE 0 =
          some (u, true) ∧
        u.len = (⟨[72, 105, 0, 0], 4, 2, 1, 1⟩ : InputState).len ∧
        u.cursor = (⟨[72, 105, 0, 0], 4, 2, 1, 1⟩ : InputState).cursor ∧
        u.select_start = (⟨[72, 105, 0, 0], 4, 2, 1, 1⟩ : InputState).select_start ∧
        ∀ j, j < (⟨[72, 105, 0, 0], 4, 2, 1, 1⟩ : InputState).len →
          u.buf.getD j 0 = (⟨[72, 105, 0, 0], 4, 2, 1, 1⟩ : InputState).buf.getD j 0) :=
  ⟨by decide, by decide, by decide,
    C7_insert_backspace_roundtrip ⟨[72, 105, 0, 0], 4, 2, 1, 1⟩ 65
      ⟨[72, 65, 105, 0], 4, 3, 2, 2⟩ (by decide) (by decide) (by decide)⟩

/-- The scan loop of `ClayKit_InputGetCursorFromX`, seeded at position `i` with
the width of the previous prefix, returns `k − 1` for the first
`k ∈ [i, i + n)` whose midpoint exceeds `x_offset`, and `length` if none
does. -/
theorem cursorFromXLoop_find (ctx : ClayKit_Context) (text : List Nat)
    (length font_id font_size : Nat) (x : ℚ) :
    ∀ (n i : Nat), 1 ≤ i →
      cursorFromXLoop ctx text length font_id font_size x n
          (ClayKit_MeasureTextWidth ctx text (i - 1) font_id font_size) i =
        match (List.range' i n).find? (fun k =>
            decide (x <
              (ClayKit_MeasureTextWidth ctx text (k - 1) font_id font_size +
                ClayKit_MeasureTextWidth ctx text k font_id font_size) / 2)) with
        | some k => k - 1
        | none => length := by
  intro n
  induction n with
  | zero =>
    intro i _
    rfl
  | succ n ih =>
    intro i hi
    have hcons : List.range' i (n + 1) = i :: List.range' (i + 1) n := rfl
    rw [hcons]
    by_cases hx : x <
        (ClayKit_MeasureTextWidth ctx text (i - 1) font_id font_size +
          ClayKit_MeasureTextWidth ctx text i font_id font_size) / 2
    · rw [List.find?_cons]
      simp only [decide_eq_true hx, cursorFromXLoop]
      rw [if_pos hx]
    · rw [List.find?_cons]
      simp only [decide_eq_false hx, cursorFromXLoop]
      rw [if_neg hx]
      exact ih (i + 1) (by omega)

/-- C8: For every measurer, buffer content, font parameters, and horizontal
offset `x`, `ClayKit_InputGetCursorFromX` returns 0 when `x ≤ 0` or
`length = 0`, and otherwise walks `i` from 1 to `length`, measuring the
prefix `storage[0..i)` at each step, returning `i − 1` at the first `i` where
`x` falls left of the midpoint between the previous prefix's width and the
current one, and `length` when no midpoint is crossed — i.e. it agrees with
the spec-side `locateCursorSpec`. -/
theorem C8_locate_cursor (ctx : ClayKit_Context)
    (f : List Nat → Nat → Nat → Nat → ℚ) (text : List Nat)
    (length font_id font_size : Nat) (x : ℚ) (hm : ctx.measure_text = some f) :
    ClayKit_InputGetCursorFromX ctx text length font_id font_size x =
      locateCursorSpec ctx text length font_id font_size x := by
  have hW0 : ClayKit_MeasureTextWidth ctx text 0 font_id font_size = 0 := by
    unfold ClayKit_MeasureTextWidth
    rw [hm]
    simp
  have hnone : ctx.measure_text.isNone = false := by rw [hm]; rfl
  unfold ClayKit_InputGetCursorFromX locateCursorSpec
  by_cases hg : x ≤ 0 ∨ length = 0
  · have hA : ctx.measure_text.isNone = true ∨ length = 0 ∨ x ≤ 0 := by
      rcases hg with h | h
      · exact Or.inr (Or.inr h)
      · exact Or.inr (Or.inl h)
    rw [if_pos hA, if_pos hg]
  · have hA : ¬ (ctx.measure_text.isNone = true ∨ length = 0 ∨ x ≤ 0) := by
      push_neg at hg ⊢
      exact ⟨by rw [hnone]; simp, hg.2, hg.1⟩
    rw [if_neg hA, if_neg hg]
    have hloop := cursorFromXLoop_find ctx text length font_id font_size x length 1
      (Nat.le_refl 1)
    rw [hW0] at hloop
    exact hloop

theorem C8_locate_cursor_witness :
    (ClayKit_Context.mk (some (fun (_ : List Nat) (l : Nat) (_ : Nat) (_ : Nat) =>
        (l : ℚ)))).measure_text =
      some (fun (_ : List Nat) (l : Nat) (_ : Nat) (_ : Nat) => (l : ℚ)) ∧
      ClayKit_InputGetCursorFromX
          ⟨some (fun (_ : List Nat) (l : Nat) (_ : Nat) (_ : Nat) => (l : ℚ))⟩
          [72, 73] 2 1 1 1 =
        locateCursorSpec
          ⟨some (fun (_ : List Nat) (l : Nat) (_ : Nat) (_ : Nat) => (l : ℚ))⟩
          [72, 73] 2 1 1 1 :=
  ⟨rfl, C8_locate_cursor
    ⟨some (fun (_ : List Nat) (l : Nat) (_ : Nat) (_ : Nat) => (l : ℚ))⟩
    (fun (_ : List Nat) (l : Nat) (_ : Nat) (_ : Nat) => (l : ℚ)) [72, 73] 2 1 1 1 rfl⟩
